import Mathlib

/-
Verification of the forecast-grid consolidation pipeline
(src/dataProcessing/process_date.py).

The pipeline stages are embedded shallowly:
  * `preprocess_slice_flip`  — the Spatial Normalizer (lines 31-52): an
    unconditional latitude-index reversal followed by label-based slicing
    to the window lat in [-70, 0], lon in [-60, 135].  Label slicing
    follows the pandas rules: on a monotonically increasing axis
    `slice(a, b)` keeps the values in [a, b]; on a monotonically
    decreasing axis it keeps the values in [b, a]; a non-monotonic axis
    is a fatal error (`none`).
  * `open_mfdataset_nested`  — the Grid Combiner (lines 142-155):
    per-file preprocessing followed by concatenation along `step` in the
    given file order; coordinates are taken from the first file
    (compat="override", coords="minimal").
  * `locate_files`           — input discovery and the empty-input check
    (lines 136-139); the glob result is passed in as a parameter since
    the filesystem is an external collaborator.
  * `drop_unused_vars`       — the Redundant Field Pruner (lines 157-160).
  * `flatten_sequence_vars`  — the Sequence Flattener (lines 54-96) over
    an explicit dataset model with named dimensions, row-major data and
    separate data-variable / coordinate maps.
  * `write_step_chunks`      — the write-time chunk plan (lines 166-169):
    the source rechunks with the literal 81 (`ds.chunk({"step": 81})`)
    right before `to_zarr`, regardless of the `chunk_step` parameter.
-/

set_option linter.unusedVariables false

/-! ### Decimal printing of naturals

`{name}_{i}` variable names produced by the flattener use Python's
decimal rendering of `i`, embedded as `toString i` (`Nat.repr`).  The
lemmas below establish that this rendering is injective, which the
flatten-count law needs.
-/

def reprChars (n : ℕ) : List Char :=
  if n < 10 then [Nat.digitChar n]
  else reprChars (n / 10) ++ [Nat.digitChar (n % 10)]
decreasing_by exact Nat.div_lt_self (by omega) (by omega)

/-! ### The Spatial Normalizer and the Grid Combiner

A `GridFrame` is the decoded content of one GRIB2 file, restricted to
its coordinate axes: a `step` axis (length 1 per file), and `latitude` /
`longitude` coordinate axes.
-/

structure GridFrame where
  step : List ℚ
  latitude : List ℚ
  longitude : List ℚ
deriving DecidableEq

def strictAsc (xs : List ℚ) : Prop := List.Pairwise (· < ·) xs

def strictDesc (xs : List ℚ) : Prop := List.Pairwise (fun a b => b < a) xs

def monoInc (xs : List ℚ) : Prop := List.Pairwise (· ≤ ·) xs

def monoDec (xs : List ℚ) : Prop := List.Pairwise (fun a b => b ≤ a) xs

instance (xs : List ℚ) : Decidable (strictAsc xs) :=
  inferInstanceAs (Decidable (List.Pairwise _ xs))

instance (xs : List ℚ) : Decidable (strictDesc xs) :=
  inferInstanceAs (Decidable (List.Pairwise _ xs))

instance (xs : List ℚ) : Decidable (monoInc xs) :=
  inferInstanceAs (Decidable (List.Pairwise _ xs))

instance (xs : List ℚ) : Decidable (monoDec xs) :=
  inferInstanceAs (Decidable (List.Pairwise _ xs))

/-- Label-based slicing of one coordinate axis, after pandas:
`slice(start, stop)` on a monotonically increasing axis keeps the values
in `[start, stop]` (closed on both ends); on a monotonically decreasing
axis it keeps the values in `[stop, start]`; a non-monotonic axis cannot
be label-sliced (a fatal error, `none`). -/
def selSlice (start stop : ℚ) (xs : List ℚ) : Option (List ℚ) :=
  if monoInc xs then
    some (xs.filter (fun v => decide (start ≤ v) && decide (v ≤ stop)))
  else if monoDec xs then
    some (xs.filter (fun v => decide (stop ≤ v) && decide (v ≤ start)))
  else none

/-- Embeds `preprocess_slice_flip` (lines 31-52): first
`ds.isel(latitude=slice(None, None, -1))` — an unconditional reversal of
the latitude index — then
`ds.sel(latitude=slice(-70, 0), longitude=slice(-60, 135))`. -/
def preprocess_slice_flip (ds : GridFrame) : Option GridFrame :=
  match selSlice (-70) 0 ds.latitude.reverse, selSlice (-60) 135 ds.longitude with
  | some lat2, some lon2 => some ⟨ds.step, lat2, lon2⟩
  | _, _ => none

/-- Per-file opening stage of `xr.open_mfdataset` (lines 142-155): each
file's frame is preprocessed with `preprocess_slice_flip`; any failure
propagates. -/
def open_all (frames : List GridFrame) : Option (List GridFrame) :=
  match frames with
  | [] => some []
  | f :: fs =>
    match preprocess_slice_flip f, open_all fs with
    | some g, some gs => some (g :: gs)
    | _, _ => none

/-- Embeds the Grid Combiner call (lines 142-155):
`xr.open_mfdataset(files, combine="nested", concat_dim="step",
preprocess=preprocess_slice_flip, compat="override", coords="minimal")`.
The preprocessed frames are concatenated along `step` in the given file
order, and the `latitude`/`longitude` coordinates are taken from the
first file (the "override"/"minimal" trust-the-source policy). -/
def open_mfdataset_nested (frames : List GridFrame) : Option GridFrame :=
  match open_all frames with
  | some (g :: gs) => some ⟨(g :: gs).flatMap GridFrame.step, g.latitude, g.longitude⟩
  | _ => none

/-! ### Input discovery (lines 136-139) -/

/-- Embeds `file_pattern.format(date=date)` for patterns whose only
placeholder is `{date}`. -/
def formatPattern (file_pattern date : String) : String :=
  file_pattern.replace "{date}" date

/-- Embeds `pattern = f"{input_root}/{file_pattern.format(date=date)}"`
(line 136). -/
def globPattern (input_root date file_pattern : String) : String :=
  input_root ++ "/" ++ formatPattern file_pattern date

/-- Embeds lines 136-139: `files = sorted(glob.glob(pattern))` followed by
`if not files: raise FileNotFoundError(...)`.  The glob result is a
parameter because the filesystem is an external collaborator; the error
carries the attempted pattern verbatim. -/
def locate_files (date input_root file_pattern : String) (globMatches : List String) :
    Except String (List String) :=
  let pattern := globPattern input_root date file_pattern
  let files := globMatches.mergeSort (fun a b => a ≤ b)
  if files.isEmpty then
    Except.error ("No GRIB2 files for date=" ++ date ++ " with pattern=" ++ pattern)
  else
    Except.ok files

/-! ### The write-time chunk plan (lines 166-169) -/

/-- Chunk sizes dask assigns along one dimension of length `n` for a
requested chunk length `c`: full chunks of length `c` and one trailing
remainder chunk. -/
def dask_chunks (c n : ℕ) : List ℕ :=
  if c = 0 then []
  else List.replicate (n / c) c ++ (if n % c = 0 then [] else [n % c])

/-- Embeds line 168, `ds = ds.chunk({"step": 81})`: the write-time rechunk
uses the literal 81, not the `chunk_step` parameter (which is only used
for the read-time chunking in `open_mfdataset`). -/
def write_step_chunks (chunk_step n : ℕ) : List ℕ :=
  dask_chunks 81 n

/-! ### The dataset model for the Pruner and the Sequence Flattener

An xarray `Dataset` is modelled as two association maps (data variables
and coordinate variables) from names to variables; a variable carries
its named dimensions, its shape, and its row-major data.  `ds.dims` is
the union of the dimensions of all variables; `key in ds` and `ds[key]`
range over all variables (coordinates included); assigning `ds[k] = v`
replaces an existing variable of that name in place and otherwise adds a
new data variable.
-/

structure Var where
  dims : List String
  shape : List ℕ
  data : List ℚ
deriving DecidableEq

structure Dataset where
  data_vars : List (String × Var)
  coords : List (String × Var)
deriving DecidableEq

def allVars (ds : Dataset) : List (String × Var) :=
  ds.data_vars ++ ds.coords

def lookupL (l : List (String × Var)) (x : String) : Option Var :=
  (l.find? (fun e => e.1 == x)).map Prod.snd

/-- Embeds `ds[x]` over `ds._variables` (data variables first, then
coordinates; names are unique across the two in any well-formed
dataset). -/
def lookupVar (ds : Dataset) (x : String) : Option Var :=
  lookupL (allVars ds) x

/-- Embeds `x in ds`. -/
def memVar (ds : Dataset) (x : String) : Bool :=
  (lookupVar ds x).isSome

/-- Embeds `d in ds.dims`: some variable of the dataset has dimension `d`. -/
def hasDim (ds : Dataset) (d : String) : Bool :=
  (allVars ds).any (fun e => e.2.dims.contains d)

/-- Embeds `ds.sizes[d]`: the extent of dimension `d`, read off the first
variable using it (all variables of an xarray dataset agree on it). -/
def dimSize (ds : Dataset) (d : String) : ℕ :=
  match (allVars ds).find? (fun e => e.2.dims.contains d) with
  | some e => e.2.shape.getD (e.2.dims.indexOf d) 0
  | none => 0

def replaceEntry (l : List (String × Var)) (x : String) (w : Var) : List (String × Var) :=
  l.map (fun e => if e.1 == x then (x, w) else e)

/-- Embeds `ds[x] = w`: replace the variable named `x` in place if it
exists (wherever it lives), otherwise append a new data variable. -/
def setVar (ds : Dataset) (x : String) (w : Var) : Dataset :=
  if ds.data_vars.any (fun e => e.1 == x) then
    ⟨replaceEntry ds.data_vars x w, ds.coords⟩
  else if ds.coords.any (fun e => e.1 == x) then
    ⟨ds.data_vars, replaceEntry ds.coords x w⟩
  else
    ⟨ds.data_vars ++ [(x, w)], ds.coords⟩

/-- Embeds `ds.drop_vars(x)`. -/
def dropVar (ds : Dataset) (x : String) : Dataset :=
  ⟨ds.data_vars.filter (fun e => !(e.1 == x)), ds.coords.filter (fun e => !(e.1 == x))⟩

/-- Embeds `ds.drop_dims(d)`: drop the dimension and every variable that
uses it. -/
def dropDims (ds : Dataset) (d : String) : Dataset :=
  ⟨ds.data_vars.filter (fun e => !(e.2.dims.contains d)),
   ds.coords.filter (fun e => !(e.2.dims.contains d))⟩

/-- Embeds `v.isel(d=i)` on a row-major variable: the `i`-th slice along
the named axis `d`; the axis disappears from the dims and the shape. -/
def iselVar (v : Var) (d : String) (i : ℕ) : Var :=
  let p := v.dims.indexOf d
  let outer := (v.shape.take p).prod
  let mid := v.shape.getD p 1
  let inner := (v.shape.drop (p + 1)).prod
  ⟨v.dims.erase d, v.shape.eraseIdx p,
   (List.range outer).flatMap (fun o => (v.data.drop (o * mid * inner + i * inner)).take inner)⟩

def ordered_seq_dim : String := "orderedSequenceData"

def SEQUENCE_VARS : List String := ["shts", "mpts", "swdir"]

/-- The flattened variable name `f"{var}_{i}"` (line 86). -/
def sliceName (var : String) (i : ℕ) : String :=
  var ++ "_" ++ toString i

/-- The inner loop of lines 85-86: for each `i < n`, assign
`out[f"{var}_{i}"] = out[var].isel(orderedSequenceData=i)`. -/
def addSlices (n : ℕ) (v : Var) (var : String) (out : Dataset) : Dataset :=
  (List.range n).foldl
    (fun o i => setVar o (sliceName var i) (iselVar v ordered_seq_dim i)) out

/-- Embeds one iteration of the candidate loop (lines 83-87): if `var`
is present and uses the sequence dimension, create `var_i` for each
`i < n` and drop `var`. -/
def flattenOne (n : ℕ) (out : Dataset) (var : String) : Dataset :=
  match lookupVar out var with
  | some v =>
    if ordered_seq_dim ∈ v.dims then dropVar (addSlices n v var out) var
    else out
  | none => out

/-- The candidate loop of `flatten_sequence_vars` (lines 83-87). -/
def flattenLoop (n : ℕ) (ds : Dataset) (vars_to_flatten : List String) : Dataset :=
  vars_to_flatten.foldl (flattenOne n) ds

/-- Embeds lines 89-92: if the sequence dimension is still present and no
data variable uses it any more, drop the dimension (and with it every
variable indexed by it). -/
def dropSeqDimIfUnused (out : Dataset) : Dataset :=
  if hasDim out ordered_seq_dim then
    if out.data_vars.any (fun e => e.2.dims.contains ordered_seq_dim) then out
    else dropDims out ordered_seq_dim
  else out

/-- Embeds lines 93-94: drop a leftover variable named after the sequence
dimension (its coordinate), if any. -/
def dropSeqCoordVar (out : Dataset) : Dataset :=
  if memVar out ordered_seq_dim then dropVar out ordered_seq_dim else out

/-- Embeds `flatten_sequence_vars` (lines 54-96): early return when the
sequence dimension is absent; otherwise flatten each candidate, then the
two cleanup steps. -/
def flatten_sequence_vars (ds : Dataset) (vars_to_flatten : List String) : Dataset :=
  if hasDim ds ordered_seq_dim then
    dropSeqCoordVar
      (dropSeqDimIfUnused (flattenLoop (dimSize ds ordered_seq_dim) ds vars_to_flatten))
  else ds

/-- Embeds the Redundant Field Pruner (lines 157-160):
`for v in ("surface", "valid_time"): if v in ds: ds = ds.drop_vars(v)`. -/
def drop_unused_vars (ds : Dataset) : Dataset :=
  ["surface", "valid_time"].foldl (fun d v => if memVar d v then dropVar d v else d) ds

/-- Well-formedness: variable names are unique across data variables and
coordinates (xarray keeps them in one dict). -/
def namesNodup (ds : Dataset) : Prop :=
  ((allVars ds).map Prod.fst).Nodup

/-- Well-formedness: no variable lists the same dimension twice. -/
def dimsNodup (ds : Dataset) : Prop :=
  ∀ e ∈ allVars ds, e.2.dims.Nodup

/-- Well-formedness: no data variable is named after one of its own
dimensions (xarray rejects such variables; a 1-D variable named after
its dimension is stored as an index coordinate instead). -/
def noSelfDim (ds : Dataset) : Prop :=
  ∀ e ∈ ds.data_vars, e.1 ∉ e.2.dims

instance (ds : Dataset) : Decidable (namesNodup ds) :=
  inferInstanceAs (Decidable (List.Nodup _))

instance (ds : Dataset) : Decidable (dimsNodup ds) :=
  inferInstanceAs (Decidable (∀ e ∈ allVars ds, e.2.dims.Nodup))

instance (ds : Dataset) : Decidable (noSelfDim ds) :=
  inferInstanceAs (Decidable (∀ e ∈ ds.data_vars, e.1 ∉ e.2.dims))

/-! ### Lemmas about decimal printing -/

lemma reprChars_lt (n : ℕ) (h : n < 10) : reprChars n = [Nat.digitChar n] := by
  rw [reprChars]
  simp [h]

lemma reprChars_ge (n : ℕ) (h : ¬ n < 10) :
    reprChars n = reprChars (n / 10) ++ [Nat.digitChar (n % 10)] := by
  conv_lhs => rw [reprChars]
  simp [h]

lemma reprChars_ne_nil (n : ℕ) : reprChars n ≠ [] := by
  by_cases h : n < 10
  · rw [reprChars_lt n h]; simp
  · rw [reprChars_ge n h]; simp

lemma toDigitsCore_eq_reprChars :
    ∀ (fuel n : ℕ) (ds : List Char), n < fuel →
      Nat.toDigitsCore 10 fuel n ds = reprChars n ++ ds := by
  intro fuel
  induction fuel with
  | zero => intro n ds h; omega
  | succ fuel ih =>
    intro n ds h
    simp only [Nat.toDigitsCore]
    by_cases h10 : n / 10 = 0
    · have hn : n < 10 := by omega
      simp only [h10, if_true]
      rw [reprChars_lt n hn]
      have : n % 10 = n := Nat.mod_eq_of_lt hn
      simp [this]
    · have hge : 10 ≤ n := by omega
      have hdiv : n / 10 < fuel := by
        have h1 : n / 10 < n := Nat.div_lt_self (by omega) (by omega)
        omega
      simp only [h10, if_neg h10]
      rw [ih (n / 10) (Nat.digitChar (n % 10) :: ds) hdiv]
      rw [reprChars_ge n (by omega)]
      simp

lemma digitChar_inj_lt : ∀ a < 10, ∀ b < 10, Nat.digitChar a = Nat.digitChar b → a = b := by
  decide

lemma reprChars_injective : ∀ m n : ℕ, reprChars m = reprChars n → m = n := by
  intro m
  induction m using Nat.strong_induction_on with
  | _ m ih =>
    intro n h
    by_cases hm : m < 10 <;> by_cases hn : n < 10
    · rw [reprChars_lt m hm, reprChars_lt n hn] at h
      simp only [List.cons.injEq, and_true] at h
      exact digitChar_inj_lt m hm n hn h
    · exfalso
      rw [reprChars_lt m hm, reprChars_ge n hn] at h
      have hlen := congrArg List.length h
      simp only [List.length_cons, List.length_append, List.length_nil,
        List.length_singleton] at hlen
      have hz : (reprChars (n / 10)).length = 0 := by omega
      exact reprChars_ne_nil (n / 10) (List.length_eq_zero.mp hz)
    · exfalso
      rw [reprChars_ge m hm, reprChars_lt n hn] at h
      have hlen := congrArg List.length h
      simp only [List.length_cons, List.length_append, List.length_nil,
        List.length_singleton] at hlen
      have hz : (reprChars (m / 10)).length = 0 := by omega
      exact reprChars_ne_nil (m / 10) (List.length_eq_zero.mp hz)
    · rw [reprChars_ge m hm, reprChars_ge n hn] at h
      have hinj := List.append_inj' h (by simp)
      obtain ⟨h1, h2⟩ := hinj
      have hdiv : m / 10 = n / 10 := ih (m / 10) (Nat.div_lt_self (by omega) (by omega)) _ h1
      have hd : Nat.digitChar (m % 10) = Nat.digitChar (n % 10) := by
        simpa using h2
      have hmod : m % 10 = n % 10 :=
        digitChar_inj_lt (m % 10) (Nat.mod_lt m (by omega)) (n % 10) (Nat.mod_lt n (by omega)) hd
      omega

lemma natToString_injective (m n : ℕ) (h : toString m = toString n) : m = n := by
  have hrepr : Nat.repr m = Nat.repr n := h
  have hm : Nat.repr m = (reprChars m).asString := by
    show (Nat.toDigits 10 m).asString = (reprChars m).asString
    unfold Nat.toDigits
    rw [toDigitsCore_eq_reprChars (m + 1) m [] (by omega)]
    simp
  have hn : Nat.repr n = (reprChars n).asString := by
    show (Nat.toDigits 10 n).asString = (reprChars n).asString
    unfold Nat.toDigits
    rw [toDigitsCore_eq_reprChars (n + 1) n [] (by omega)]
    simp
  rw [hm, hn] at hrepr
  have hdata := congrArg String.data hrepr
  simp only [List.asString] at hdata
  exact reprChars_injective m n hdata

/-! ### Lemmas about label slicing -/

lemma selSlice_mem (start stop : ℚ) (xs ys : List ℚ)
    (h : selSlice start stop xs = some ys) (hss : start ≤ stop) :
    ∀ v ∈ ys, start ≤ v ∧ v ≤ stop := by
  intro v hv
  unfold selSlice at h
  by_cases h1 : monoInc xs
  · simp only [h1, if_true, Option.some.injEq] at h
    subst h
    have := List.mem_filter.mp hv
    simp at this
    exact ⟨this.2.1, this.2.2⟩
  · by_cases h2 : monoDec xs
    · simp only [h1, h2, if_true, if_false, Option.some.injEq] at h
      subst h
      have := List.mem_filter.mp hv
      simp at this
      obtain ⟨-, hsv, hvs⟩ := this
      exact ⟨le_trans hss hsv, le_trans hvs hss⟩
    · simp [h1, h2] at h

lemma pairwise_gtlt_and_le (l : List ℚ)
    (h1 : List.Pairwise (fun a b => b < a) l) (h2 : List.Pairwise (· ≤ ·) l) :
    List.Pairwise (· < ·) l := by
  cases l with
  | nil => exact List.Pairwise.nil
  | cons a t =>
    cases t with
    | nil => simp
    | cons b t2 =>
      exfalso
      have hba : b < a := (List.pairwise_cons.mp h1).1 b (by simp)
      have hab : a ≤ b := (List.pairwise_cons.mp h2).1 b (by simp)
      exact absurd hba (not_lt_of_le hab)

lemma selSlice_strictAsc (start stop : ℚ) (xs ys : List ℚ)
    (h : selSlice start stop xs = some ys) (hlt : start < stop)
    (hx : strictAsc xs ∨ strictDesc xs) : strictAsc ys := by
  unfold selSlice at h
  by_cases h1 : monoInc xs
  · simp only [h1, if_true, Option.some.injEq] at h
    subst h
    rcases hx with ha | hd
    · exact List.Pairwise.filter _ ha
    · have hgt : List.Pairwise (fun a b => b < a)
          (xs.filter (fun v => decide (start ≤ v) && decide (v ≤ stop))) :=
        List.Pairwise.filter _ hd
      have hle : List.Pairwise (· ≤ ·)
          (xs.filter (fun v => decide (start ≤ v) && decide (v ≤ stop))) :=
        List.Pairwise.filter _ h1
      exact pairwise_gtlt_and_le _ hgt hle
  · by_cases h2 : monoDec xs
    · simp only [h1, h2, if_true, if_false, Option.some.injEq] at h
      subst h
      have : xs.filter (fun v => decide (stop ≤ v) && decide (v ≤ start)) = [] := by
        apply List.filter_eq_nil_iff.mpr
        intro v hv
        simp only [Bool.and_eq_true, decide_eq_true_eq, not_and]
        intro hsv hvs
        exact absurd (le_trans hsv hvs) (not_le_of_lt hlt)
      rw [this]
      exact List.Pairwise.nil
    · simp [h1, h2] at h

lemma preprocess_keeps_step (g out : GridFrame)
    (h : preprocess_slice_flip g = some out) : out.step = g.step := by
  unfold preprocess_slice_flip at h
  cases hs1 : selSlice (-70) 0 g.latitude.reverse with
  | none => rw [hs1] at h; simp at h
  | some lat2 =>
    cases hs2 : selSlice (-60) 135 g.longitude with
    | none => rw [hs1, hs2] at h; simp at h
    | some lon2 =>
      rw [hs1, hs2] at h
      simp only [Option.some.injEq] at h
      rw [← h]

/-! ### C1: the ascending-latitude invariant -/

/-- C1: for every GridFrame whose latitude axis is natively strictly
ascending or strictly descending, the Spatial Normalizer
(`preprocess_slice_flip`) returns a dataset whose latitude axis is
strictly ascending. -/
theorem C1_ascending_latitude (g out : GridFrame)
    (hnat : strictAsc g.latitude ∨ strictDesc g.latitude)
    (h : preprocess_slice_flip g = some out) :
    strictAsc out.latitude := by
  unfold preprocess_slice_flip at h
  cases hs1 : selSlice (-70) 0 g.latitude.reverse with
  | none => rw [hs1] at h; simp at h
  | some lat2 =>
    cases hs2 : selSlice (-60) 135 g.longitude with
    | none => rw [hs1, hs2] at h; simp at h
    | some lon2 =>
      rw [hs1, hs2] at h
      simp only [Option.some.injEq] at h
      have hrev : strictAsc g.latitude.reverse ∨ strictDesc g.latitude.reverse := by
        rcases hnat with ha | hd
        · right
          unfold strictDesc
          exact List.pairwise_reverse.mpr ha
        · left
          unfold strictAsc
          exact List.pairwise_reverse.mpr hd
      have := selSlice_strictAsc (-70) 0 g.latitude.reverse lat2 hs1 (by norm_num) hrev
      rw [← h]
      exact this

theorem C1_ascending_latitude_witness :
    strictAsc (⟨[0], [-70, -35, 0], [100, 110]⟩ : GridFrame).latitude :=
  C1_ascending_latitude ⟨[0], [0, -35, -70], [100, 110]⟩ ⟨[0], [-70, -35, 0], [100, 110]⟩
    (Or.inr (by decide)) (by decide)

/-! ### C6: the bounding-box invariant -/

/-- C6: every latitude value of the Spatial Normalizer's output lies in
the closed interval [-70, 0], and every longitude value lies in the
closed interval [-60, 135]. -/
theorem C6_bounding_box (g out : GridFrame)
    (h : preprocess_slice_flip g = some out) :
    (∀ v ∈ out.latitude, -70 ≤ v ∧ v ≤ 0) ∧
    (∀ v ∈ out.longitude, -60 ≤ v ∧ v ≤ 135) := by
  unfold preprocess_slice_flip at h
  cases hs1 : selSlice (-70) 0 g.latitude.reverse with
  | none => rw [hs1] at h; simp at h
  | some lat2 =>
    cases hs2 : selSlice (-60) 135 g.longitude with
    | none => rw [hs1, hs2] at h; simp at h
    | some lon2 =>
      rw [hs1, hs2] at h
      simp only [Option.some.injEq] at h
      constructor
      · intro v hv
        rw [← h] at hv
        exact selSlice_mem (-70) 0 g.latitude.reverse lat2 hs1 (by norm_num) v hv
      · intro v hv
        rw [← h] at hv
        exact selSlice_mem (-60) 135 g.longitude lon2 hs2 (by norm_num) v hv

theorem C6_bounding_box_witness :
    (∀ v ∈ (⟨[0], [-70, -35, 0], [100, 110]⟩ : GridFrame).latitude, -70 ≤ v ∧ v ≤ 0) ∧
    (∀ v ∈ (⟨[0], [-70, -35, 0], [100, 110]⟩ : GridFrame).longitude, -60 ≤ v ∧ v ≤ 135) :=
  C6_bounding_box ⟨[0], [0, -35, -70], [100, 110]⟩ ⟨[0], [-70, -35, 0], [100, 110]⟩ (by decide)

/-! ### C7: the step-count invariant -/

lemma open_all_steps (frames pre : List GridFrame) (h : open_all frames = some pre) :
    pre.flatMap GridFrame.step = frames.flatMap GridFrame.step ∧
    pre.length = frames.length := by
  induction frames generalizing pre with
  | nil =>
    unfold open_all at h
    simp only [Option.some.injEq] at h
    subst h
    simp
  | cons f fs ih =>
    unfold open_all at h
    cases hp : preprocess_slice_flip f with
    | none => rw [hp] at h; simp at h
    | some g =>
      cases ho : open_all fs with
      | none => rw [hp, ho] at h; simp at h
      | some gs =>
        rw [hp, ho] at h
        simp only [Option.some.injEq] at h
        subst h
        obtain ⟨h1, h2⟩ := ih gs ho
        constructor
        · simp only [List.flatMap_cons]
          rw [h1, preprocess_keeps_step f g hp]
        · simp [h2]

/-- C7: for every non-empty list of N input frames each carrying a
length-1 step axis, the Grid Combiner's output step axis has exactly N
entries, concatenated in the same order as the input list (no
re-sorting). -/
theorem C7_step_count (frames : List GridFrame) (ds : GridFrame)
    (hone : ∀ f ∈ frames, f.step.length = 1)
    (h : open_mfdataset_nested frames = some ds) :
    ds.step = frames.flatMap GridFrame.step ∧ ds.step.length = frames.length := by
  unfold open_mfdataset_nested at h
  cases ho : open_all frames with
  | none => rw [ho] at h; simp at h
  | some pre =>
    cases pre with
    | nil => rw [ho] at h; simp at h
    | cons g gs =>
      rw [ho] at h
      simp only [Option.some.injEq] at h
      obtain ⟨h1, h2⟩ := open_all_steps frames (g :: gs) ho
      have hstep : ds.step = frames.flatMap GridFrame.step := by
        rw [← h]
        exact h1
      refine ⟨hstep, ?_⟩
      rw [hstep]
      clear h h1 h2 hstep ho
      induction frames with
      | nil => simp
      | cons f fs ih =>
        simp only [List.flatMap_cons, List.length_append, List.length_cons]
        rw [hone f (by simp), ih (fun x hx => hone x (by simp [hx]))]
        omega

theorem C7_step_count_witness :
    (⟨[0, 3], [-70, -35, 0], [100]⟩ : GridFrame).step =
      ([⟨[0], [0, -35, -70], [100]⟩, ⟨[3], [0, -35, -70], [100]⟩] :
        List GridFrame).flatMap GridFrame.step ∧
    (⟨[0, 3], [-70, -35, 0], [100]⟩ : GridFrame).step.length =
      ([⟨[0], [0, -35, -70], [100]⟩, ⟨[3], [0, -35, -70], [100]⟩] :
        List GridFrame).length :=
  C7_step_count [⟨[0], [0, -35, -70], [100]⟩, ⟨[3], [0, -35, -70], [100]⟩]
    ⟨[0, 3], [-70, -35, 0], [100]⟩ (by decide) (by decide)

/-! ### C5: the input-absence error -/

/-- C5: an empty glob result for the requested cycle produces a
distinguishable input-absence error whose message contains the attempted
match pattern verbatim; no file list is returned. -/
theorem C5_input_absence (date input_root file_pattern : String) :
    locate_files date input_root file_pattern [] =
      Except.error ("No GRIB2 files for date=" ++ date ++ " with pattern=" ++
        globPattern input_root date file_pattern) ∧
    ∃ pre post,
      ("No GRIB2 files for date=" ++ date ++ " with pattern=" ++
        globPattern input_root date file_pattern) =
      pre ++ globPattern input_root date file_pattern ++ post := by
  constructor
  · unfold locate_files
    rw [List.mergeSort_nil]
    rfl
  · exact ⟨"No GRIB2 files for date=" ++ date ++ " with pattern=", "",
      by rw [String.append_empty]⟩

/-! ### C2: the write-time chunk plan -/

/-- C2 (code evaluation at the failing input): with a configured chunk
length of 50 on a 241-length step axis, the write-time chunk plan is
still [81, 81, 79] — the source rechunks with the literal 81 at line 168
instead of the `chunk_step` parameter — so a chunk of length 81 > 50 is
written, while the requested plan would have been [50, 50, 50, 50, 41].
With the default 81 the plan is the documented [81, 81, 79]. -/
theorem C2_chunk_plan_bug :
    write_step_chunks 50 241 = [81, 81, 79] ∧
    dask_chunks 50 241 = [50, 50, 50, 50, 41] ∧
    81 ∈ write_step_chunks 50 241 ∧ ¬ (81 ≤ 50) ∧
    write_step_chunks 81 241 = [81, 81, 79] := by
  decide

/-! ### String facts about flattened variable names -/

lemma natToString_data (n : ℕ) : (toString n).data = reprChars n := by
  show (Nat.repr n).data = reprChars n
  show (Nat.toDigits 10 n).asString.data = reprChars n
  unfold Nat.toDigits
  rw [toDigitsCore_eq_reprChars (n + 1) n [] (by omega)]
  simp [List.asString]

lemma sliceName_data (c : String) (i : ℕ) :
    (sliceName c i).data = c.data ++ '_' :: (toString i).data := by
  show ((c ++ "_") ++ toString i).data = _
  rw [String.data_append, String.data_append]
  simp

lemma sliceName_ne_base (c : String) (i : ℕ) : sliceName c i ≠ c := by
  intro h
  have hlen := congrArg (fun s : String => s.data.length) h
  simp only [sliceName_data, List.length_append, List.length_cons] at hlen
  omega

lemma sliceName_inj (c : String) (i j : ℕ) (h : sliceName c i = sliceName c j) : i = j := by
  have hd := congrArg String.data h
  rw [sliceName_data, sliceName_data] at hd
  have h2 := List.append_cancel_left hd
  simp only [List.cons.injEq, true_and] at h2
  rw [natToString_data, natToString_data] at h2
  exact reprChars_injective i j h2

lemma sliceName_ne_noUnderscore (c s : String) (i : ℕ) (hs : ('_' : Char) ∉ s.data) :
    sliceName c i ≠ s := by
  intro h
  apply hs
  rw [← h, sliceName_data]
  simp

lemma digitChar_small_ne_underscore : ∀ k < 16, Nat.digitChar k ≠ '_' := by
  decide

lemma digitChar_large (k : ℕ) (h : 16 ≤ k) : Nat.digitChar k = '*' := by
  unfold Nat.digitChar
  iterate 16 rw [if_neg (by omega)]

lemma digitChar_ne_underscore (k : ℕ) : Nat.digitChar k ≠ '_' := by
  by_cases h : k < 16
  · exact digitChar_small_ne_underscore k h
  · rw [digitChar_large k (by omega)]
    decide

lemma reprChars_no_underscore : ∀ n : ℕ, ('_' : Char) ∉ reprChars n := by
  intro n
  induction n using Nat.strong_induction_on with
  | _ n ih =>
    by_cases hn : n < 10
    · rw [reprChars_lt n hn]
      simp only [List.mem_singleton]
      exact fun hc => digitChar_ne_underscore n hc.symm
    · rw [reprChars_ge n hn]
      intro hmem
      rcases List.mem_append.mp hmem with hm | hm
      · exact ih (n / 10) (Nat.div_lt_self (by omega) (by omega)) hm
      · simp only [List.mem_singleton] at hm
        exact digitChar_ne_underscore (n % 10) hm.symm

lemma append_sep_inj (s : Char) :
    ∀ (a b x y : List Char), s ∉ a → s ∉ b →
      a ++ s :: x = b ++ s :: y → a = b ∧ x = y := by
  intro a
  induction a with
  | nil =>
    intro b x y ha hb h
    cases b with
    | nil =>
      simp only [List.nil_append, List.cons.injEq, true_and] at h
      exact ⟨rfl, h⟩
    | cons b0 bt =>
      exfalso
      simp only [List.nil_append, List.cons_append, List.cons.injEq] at h
      exact hb (h.1 ▸ List.mem_cons_self b0 bt)
  | cons a0 t ih =>
    intro b x y ha hb h
    cases b with
    | nil =>
      exfalso
      simp only [List.cons_append, List.nil_append, List.cons.injEq] at h
      exact ha (h.1 ▸ List.mem_cons_self a0 t)
    | cons b0 bt =>
      simp only [List.cons_append, List.cons.injEq] at h
      obtain ⟨rfl, h2⟩ := h
      have hrec := ih bt x y (fun hc => ha (List.mem_cons_of_mem _ hc))
        (fun hc => hb (List.mem_cons_of_mem _ hc)) h2
      exact ⟨by rw [hrec.1], hrec.2⟩

lemma sliceName_ne_cross (c c' : String) (i j : ℕ)
    (hcu : ('_' : Char) ∉ c.data) (hcu' : ('_' : Char) ∉ c'.data)
    (hne : c ≠ c') : sliceName c i ≠ sliceName c' j := by
  intro h
  apply hne
  have hd := congrArg String.data h
  rw [sliceName_data, sliceName_data] at hd
  have hti : ('_' : Char) ∉ (toString i).data := by
    rw [natToString_data]
    exact reprChars_no_underscore i
  have := append_sep_inj '_' c.data c'.data (toString i).data (toString j).data hcu hcu' hd
  exact String.ext this.1

lemma no_underscore_seq_vars : ∀ s ∈ SEQUENCE_VARS, ('_' : Char) ∉ s.data := by decide

lemma no_underscore_seq_dim : ('_' : Char) ∉ ordered_seq_dim.data := by decide

/-! ### Association-list lemmas for the dataset model -/

lemma lookupL_nil (y : String) : lookupL [] y = none := rfl

lemma lookupL_cons (e : String × Var) (t : List (String × Var)) (y : String) :
    lookupL (e :: t) y = if e.1 = y then some e.2 else lookupL t y := by
  by_cases h : e.1 = y
  · simp only [lookupL, h, if_true]
    rw [List.find?_cons_of_pos t (by simp [h])]
    rfl
  · simp only [lookupL, h, if_false]
    rw [List.find?_cons_of_neg t (by simp [h])]

lemma lookupL_append_some (l1 l2 : List (String × Var)) (y : String) (w : Var)
    (h : lookupL l1 y = some w) : lookupL (l1 ++ l2) y = some w := by
  induction l1 with
  | nil => rw [lookupL_nil] at h; exact absurd h (by simp)
  | cons e t ih =>
    rw [List.cons_append, lookupL_cons]
    rw [lookupL_cons] at h
    by_cases he : e.1 = y
    · simpa [he] using h
    · rw [if_neg he] at h ⊢
      exact ih h

lemma lookupL_append_none (l1 l2 : List (String × Var)) (y : String)
    (h : lookupL l1 y = none) : lookupL (l1 ++ l2) y = lookupL l2 y := by
  induction l1 with
  | nil => rfl
  | cons e t ih =>
    rw [List.cons_append, lookupL_cons]
    rw [lookupL_cons] at h
    by_cases he : e.1 = y
    · simp [he] at h
    · rw [if_neg he] at h ⊢
      exact ih h

lemma lookupL_mem (l : List (String × Var)) (y : String) (w : Var)
    (h : lookupL l y = some w) : (y, w) ∈ l := by
  unfold lookupL at h
  cases hf : l.find? (fun e => e.1 == y) with
  | none => rw [hf] at h; simp at h
  | some e =>
    rw [hf] at h
    simp at h
    have hm := List.mem_of_find?_eq_some hf
    have hp := List.find?_some hf
    simp only [beq_iff_eq] at hp
    have : e = (y, w) := by
      cases e
      simp only [Prod.mk.injEq]
      exact ⟨hp, h⟩
    rw [← this]
    exact hm

lemma lookupL_eq_of_mem_nodup (l : List (String × Var)) (y : String) (w : Var)
    (hnd : (l.map Prod.fst).Nodup) (hm : (y, w) ∈ l) : lookupL l y = some w := by
  induction l with
  | nil => simp at hm
  | cons e t ih =>
    rw [lookupL_cons]
    rw [List.map_cons] at hnd
    have hnd' := List.nodup_cons.mp hnd
    rcases List.mem_cons.mp hm with he | ht
    · rw [← he]
      simp
    · have hy : y ∈ t.map Prod.fst := List.mem_map_of_mem Prod.fst ht
      have hne : e.1 ≠ y := fun hc => hnd'.1 (hc ▸ hy)
      rw [if_neg hne]
      exact ih hnd'.2 ht

lemma lookupL_replaceEntry_ne (l : List (String × Var)) (x y : String) (w : Var)
    (h : y ≠ x) : lookupL (replaceEntry l x w) y = lookupL l y := by
  induction l with
  | nil => rfl
  | cons e t ih =>
    show lookupL ((if e.1 == x then (x, w) else e) :: replaceEntry t x w) y =
      lookupL (e :: t) y
    by_cases he : e.1 = x
    · rw [if_pos (by simp [he])]
      rw [lookupL_cons, lookupL_cons]
      rw [if_neg (fun hc : x = y => h hc.symm)]
      rw [if_neg (fun hc : e.1 = y => h (hc ▸ he))]
      exact ih
    · rw [if_neg (by simp [he])]
      rw [lookupL_cons, lookupL_cons]
      by_cases hey : e.1 = y
      · rw [if_pos hey, if_pos hey]
      · rw [if_neg hey, if_neg hey]
        exact ih

lemma lookupL_replaceEntry_self (l : List (String × Var)) (x : String) (w : Var)
    (h : l.any (fun e => e.1 == x) = true) : lookupL (replaceEntry l x w) x = some w := by
  induction l with
  | nil => simp at h
  | cons e t ih =>
    show lookupL ((if e.1 == x then (x, w) else e) :: replaceEntry t x w) x = _
    by_cases he : e.1 = x
    · simp only [he, beq_self_eq_true, if_true]
      rw [lookupL_cons]
      simp
    · simp only [beq_iff_eq, he, if_false]
      rw [lookupL_cons, if_neg he]
      apply ih
      simpa [he] using h

lemma lookupL_none_of_any_false (l : List (String × Var)) (x : String)
    (h : l.any (fun e => e.1 == x) = false) : lookupL l x = none := by
  induction l with
  | nil => rfl
  | cons e t ih =>
    rw [lookupL_cons]
    simp only [List.any_cons, Bool.or_eq_false_iff, beq_eq_false_iff_ne] at h
    rw [if_neg h.1]
    exact ih (by simpa using h.2)

lemma lookupL_filterOut (l : List (String × Var)) (x y : String) :
    lookupL (l.filter (fun e => !(e.1 == x))) y =
      if y = x then none else lookupL l y := by
  induction l with
  | nil =>
    simp only [List.filter_nil, lookupL_nil]
    split <;> rfl
  | cons e t ih =>
    rw [List.filter_cons]
    by_cases he : e.1 = x
    · have hpred : (!(e.1 == x)) = false := by simp [he]
      rw [hpred]
      simp only [Bool.false_eq_true, if_false]
      rw [ih]
      by_cases hy : y = x
      · rw [if_pos hy, if_pos hy]
      · rw [if_neg hy, if_neg hy, lookupL_cons,
          if_neg (fun hc : e.1 = y => hy ((hc ▸ he : y = x)))]
    · have hpred : (!(e.1 == x)) = true := by simp [he]
      rw [hpred]
      simp only [if_true]
      rw [lookupL_cons, lookupL_cons, ih]
      by_cases hey : e.1 = y
      · have hyx : ¬ y = x := fun hc => he (hey.trans hc)
        rw [if_pos hey, if_neg hyx, if_pos hey]
      · rw [if_neg hey, if_neg hey]

/-! ### Dataset-level lookup lemmas -/

lemma allVars_dropVar (ds : Dataset) (x : String) :
    allVars (dropVar ds x) = (allVars ds).filter (fun e => !(e.1 == x)) := by
  simp [allVars, dropVar, List.filter_append]

lemma allVars_dropDims (ds : Dataset) (d : String) :
    allVars (dropDims ds d) = (allVars ds).filter (fun e => !(e.2.dims.contains d)) := by
  simp [allVars, dropDims, List.filter_append]

lemma lookup_dropVar (ds : Dataset) (x y : String) :
    lookupVar (dropVar ds x) y = if y = x then none else lookupVar ds y := by
  rw [lookupVar, allVars_dropVar, lookupL_filterOut]
  rfl

lemma lookup_setVar (ds : Dataset) (x : String) (w : Var) (y : String) :
    lookupVar (setVar ds x w) y = if y = x then some w else lookupVar ds y := by
  unfold setVar
  by_cases h1 : ds.data_vars.any (fun e => e.1 == x) = true
  · simp only [h1, if_true]
    show lookupL (replaceEntry ds.data_vars x w ++ ds.coords) y =
      if y = x then some w else lookupL (ds.data_vars ++ ds.coords) y
    by_cases hy : y = x
    · subst hy
      rw [if_pos rfl]
      exact lookupL_append_some _ _ _ _ (lookupL_replaceEntry_self _ _ _ h1)
    · rw [if_neg hy]
      cases hdv : lookupL ds.data_vars y with
      | some w' =>
        rw [lookupL_append_some _ _ _ _ ((lookupL_replaceEntry_ne _ _ _ _ hy).trans hdv)]
        exact (lookupL_append_some _ _ _ _ hdv).symm
      | none =>
        rw [lookupL_append_none _ _ _ ((lookupL_replaceEntry_ne _ _ _ _ hy).trans hdv)]
        exact (lookupL_append_none _ _ _ hdv).symm
  · have h1' : ds.data_vars.any (fun e => e.1 == x) = false := Bool.not_eq_true _ ▸ h1
    by_cases h2 : ds.coords.any (fun e => e.1 == x) = true
    · simp only [h1, h2, if_true, if_false]
      show lookupL (ds.data_vars ++ replaceEntry ds.coords x w) y =
        if y = x then some w else lookupL (ds.data_vars ++ ds.coords) y
      by_cases hy : y = x
      · subst hy
        rw [if_pos rfl, lookupL_append_none _ _ _ (lookupL_none_of_any_false _ _ h1')]
        exact lookupL_replaceEntry_self _ _ _ h2
      · rw [if_neg hy]
        cases hdv : lookupL ds.data_vars y with
        | some w' =>
          rw [lookupL_append_some _ _ _ _ hdv]
          exact (lookupL_append_some _ _ _ _ hdv).symm
        | none =>
          rw [lookupL_append_none _ _ _ hdv, lookupL_replaceEntry_ne _ _ _ _ hy]
          exact (lookupL_append_none _ _ _ hdv).symm
    · simp only [h1, h2, if_false]
      show lookupL ((ds.data_vars ++ [(x, w)]) ++ ds.coords) y =
        if y = x then some w else lookupL (ds.data_vars ++ ds.coords) y
      by_cases hy : y = x
      · subst hy
        rw [if_pos rfl]
        apply lookupL_append_some
        rw [lookupL_append_none _ _ _ (lookupL_none_of_any_false _ _ h1')]
        rw [lookupL_cons]
        simp
      · rw [if_neg hy]
        cases hdv : lookupL ds.data_vars y with
        | some w' =>
          rw [lookupL_append_some _ _ _ _ (lookupL_append_some _ _ _ _ hdv)]
          exact (lookupL_append_some _ _ _ _ hdv).symm
        | none =>
          have hsingle : lookupL [(x, w)] y = none := by
            rw [lookupL_cons]
            simp only [lookupL_nil]
            rw [if_neg (fun hc => hy hc.symm)]
          rw [lookupL_append_none _ _ _ (by rw [lookupL_append_none _ _ _ hdv]; exact hsingle)]
          exact (lookupL_append_none _ _ _ hdv).symm

lemma memVar_dropVar_self (ds : Dataset) (x : String) :
    memVar (dropVar ds x) x = false := by
  simp [memVar, lookup_dropVar]

lemma memVar_dropVar_other (ds : Dataset) (x y : String) (h : y ≠ x) :
    memVar (dropVar ds x) y = memVar ds y := by
  simp [memVar, lookup_dropVar, h]

/-! ### C9: the Redundant Field Pruner -/

/-- C9: the pruner removes `surface` and `valid_time` whenever present
(both are absent from its output), leaves a dataset lacking both
unchanged (absence is not an error), and is idempotent. -/
theorem C9_pruner (ds : Dataset) :
    (memVar (drop_unused_vars ds) "surface" = false ∧
     memVar (drop_unused_vars ds) "valid_time" = false) ∧
    (memVar ds "surface" = false → memVar ds "valid_time" = false →
      drop_unused_vars ds = ds) ∧
    drop_unused_vars (drop_unused_vars ds) = drop_unused_vars ds := by
  have mo1 : ∀ d' : Dataset, memVar (dropVar d' "valid_time") "surface" = memVar d' "surface" :=
    fun d' => memVar_dropVar_other d' "valid_time" "surface" (by decide)
  have hrun : ∀ d : Dataset, drop_unused_vars d =
      (if memVar (if memVar d "surface" then dropVar d "surface" else d) "valid_time" then
        dropVar (if memVar d "surface" then dropVar d "surface" else d) "valid_time"
       else (if memVar d "surface" then dropVar d "surface" else d)) := by
    intro d
    rfl
  have habs : ∀ d : Dataset,
      memVar (drop_unused_vars d) "surface" = false ∧
      memVar (drop_unused_vars d) "valid_time" = false := by
    intro d
    by_cases h1 : memVar d "surface" = true
    · by_cases h2 : memVar (dropVar d "surface") "valid_time" = true
      · have hr : drop_unused_vars d = dropVar (dropVar d "surface") "valid_time" := by
          rw [hrun d, if_pos h1, if_pos h2]
        rw [hr]
        refine ⟨?_, memVar_dropVar_self _ "valid_time"⟩
        rw [mo1]
        exact memVar_dropVar_self d "surface"
      · have h2' : memVar (dropVar d "surface") "valid_time" = false :=
          Bool.not_eq_true _ ▸ h2
        have hr : drop_unused_vars d = dropVar d "surface" := by
          rw [hrun d, if_pos h1, if_neg h2]
        rw [hr]
        exact ⟨memVar_dropVar_self d "surface", h2'⟩
    · have h1' : memVar d "surface" = false := Bool.not_eq_true _ ▸ h1
      by_cases h2 : memVar d "valid_time" = true
      · have hr : drop_unused_vars d = dropVar d "valid_time" := by
          rw [hrun d, if_neg h1, if_pos h2]
        rw [hr]
        refine ⟨?_, memVar_dropVar_self _ "valid_time"⟩
        rw [mo1]
        exact h1'
      · have h2' : memVar d "valid_time" = false := Bool.not_eq_true _ ▸ h2
        have hr : drop_unused_vars d = d := by
          rw [hrun d, if_neg h1, if_neg h2]
        rw [hr]
        exact ⟨h1', h2'⟩
  have hnoop : ∀ d : Dataset, memVar d "surface" = false → memVar d "valid_time" = false →
      drop_unused_vars d = d := by
    intro d hs hv
    rw [hrun d]
    simp only [hs, hv, Bool.false_eq_true, if_false]
  exact ⟨habs ds, hnoop ds, hnoop (drop_unused_vars ds) (habs ds).1 (habs ds).2⟩

theorem C9_pruner_witness :
    drop_unused_vars ⟨[("swh", ⟨["latitude"], [1], [0]⟩)], []⟩ =
      ⟨[("swh", ⟨["latitude"], [1], [0]⟩)], []⟩ :=
  (C9_pruner ⟨[("swh", ⟨["latitude"], [1], [0]⟩)], []⟩).2.1 (by decide) (by decide)

/-! ### Variable-slice and membership lemmas -/

lemma iselVar_dims (v : Var) (d : String) (i : ℕ) :
    (iselVar v d i).dims = v.dims.erase d := rfl

lemma iselVar_not_dim (v : Var) (i : ℕ) (hv : v.dims.Nodup) :
    ordered_seq_dim ∉ (iselVar v ordered_seq_dim i).dims := by
  rw [iselVar_dims]
  exact hv.not_mem_erase

lemma iselVar_dims_nodup (v : Var) (d : String) (i : ℕ) (hv : v.dims.Nodup) :
    (iselVar v d i).dims.Nodup := by
  rw [iselVar_dims]
  exact hv.erase d

lemma addSlices_zero (v : Var) (var : String) (out : Dataset) :
    addSlices 0 v var out = out := rfl

lemma addSlices_succ (n : ℕ) (v : Var) (var : String) (out : Dataset) :
    addSlices (n + 1) v var out =
      setVar (addSlices n v var out) (sliceName var n) (iselVar v ordered_seq_dim n) := by
  unfold addSlices
  rw [show List.range (n + 1) = List.range n ++ [n] by simpa using List.range_succ (n := n)]
  rw [List.foldl_append]
  rfl

lemma lookup_addSlices_other (n : ℕ) (v : Var) (var : String) (out : Dataset) (x : String)
    (hx : ∀ i < n, x ≠ sliceName var i) :
    lookupVar (addSlices n v var out) x = lookupVar out x := by
  induction n with
  | zero => rfl
  | succ n ih =>
    rw [addSlices_succ, lookup_setVar, if_neg (hx n (by omega))]
    exact ih (fun i hi => hx i (by omega))

lemma lookup_addSlices_slice (n : ℕ) (v : Var) (var : String) (out : Dataset)
    (i : ℕ) (hi : i < n) :
    lookupVar (addSlices n v var out) (sliceName var i) =
      some (iselVar v ordered_seq_dim i) := by
  induction n with
  | zero => omega
  | succ n ih =>
    rw [addSlices_succ, lookup_setVar]
    by_cases hin : i = n
    · subst hin
      rw [if_pos rfl]
    · rw [if_neg (fun hc => hin (sliceName_inj var i n hc))]
      exact ih (by omega)

lemma mem_replaceEntry (l : List (String × Var)) (x : String) (w : Var) (e : String × Var)
    (h : e ∈ replaceEntry l x w) : e = (x, w) ∨ e ∈ l := by
  unfold replaceEntry at h
  obtain ⟨a, ha, hae⟩ := List.mem_map.mp h
  by_cases hax : a.1 = x
  · left
    rw [← hae]
    simp [hax]
  · right
    rw [← hae]
    simp only [beq_iff_eq, hax, if_false]
    exact ha

lemma mem_data_setVar (ds : Dataset) (x : String) (w : Var) (e : String × Var)
    (h : e ∈ (setVar ds x w).data_vars) : e = (x, w) ∨ e ∈ ds.data_vars := by
  unfold setVar at h
  by_cases h1 : ds.data_vars.any (fun e => e.1 == x) = true
  · rw [if_pos h1] at h
    exact mem_replaceEntry _ _ _ _ h
  · rw [if_neg h1] at h
    by_cases h2 : ds.coords.any (fun e => e.1 == x) = true
    · rw [if_pos h2] at h
      exact Or.inr h
    · rw [if_neg h2] at h
      rcases List.mem_append.mp h with hm | hm
      · exact Or.inr hm
      · left
        simpa using hm

lemma mem_coords_setVar (ds : Dataset) (x : String) (w : Var) (e : String × Var)
    (h : e ∈ (setVar ds x w).coords) : e = (x, w) ∨ e ∈ ds.coords := by
  unfold setVar at h
  by_cases h1 : ds.data_vars.any (fun e => e.1 == x) = true
  · rw [if_pos h1] at h
    exact Or.inr h
  · rw [if_neg h1] at h
    by_cases h2 : ds.coords.any (fun e => e.1 == x) = true
    · rw [if_pos h2] at h
      exact mem_replaceEntry _ _ _ _ h
    · rw [if_neg h2] at h
      exact Or.inr h

lemma mem_allVars_setVar (ds : Dataset) (x : String) (w : Var) (e : String × Var)
    (h : e ∈ allVars (setVar ds x w)) : e = (x, w) ∨ e ∈ allVars ds := by
  rcases List.mem_append.mp h with hm | hm
  · rcases mem_data_setVar _ _ _ _ hm with he | he
    · exact Or.inl he
    · exact Or.inr (List.mem_append.mpr (Or.inl he))
  · rcases mem_coords_setVar _ _ _ _ hm with he | he
    · exact Or.inl he
    · exact Or.inr (List.mem_append.mpr (Or.inr he))

lemma mem_data_addSlices (n : ℕ) (v : Var) (var : String) (out : Dataset) (e : String × Var)
    (h : e ∈ (addSlices n v var out).data_vars) :
    (∃ i < n, e = (sliceName var i, iselVar v ordered_seq_dim i)) ∨ e ∈ out.data_vars := by
  induction n with
  | zero => exact Or.inr h
  | succ n ih =>
    rw [addSlices_succ] at h
    rcases mem_data_setVar _ _ _ _ h with he | he
    · exact Or.inl ⟨n, by omega, he⟩
    · rcases ih he with ⟨i, hi, hei⟩ | hm
      · exact Or.inl ⟨i, by omega, hei⟩
      · exact Or.inr hm

lemma mem_allVars_addSlices (n : ℕ) (v : Var) (var : String) (out : Dataset) (e : String × Var)
    (h : e ∈ allVars (addSlices n v var out)) :
    (∃ i < n, e = (sliceName var i, iselVar v ordered_seq_dim i)) ∨ e ∈ allVars out := by
  induction n with
  | zero => exact Or.inr h
  | succ n ih =>
    rw [addSlices_succ] at h
    rcases mem_allVars_setVar _ _ _ _ h with he | he
    · exact Or.inl ⟨n, by omega, he⟩
    · rcases ih he with ⟨i, hi, hei⟩ | hm
      · exact Or.inl ⟨i, by omega, hei⟩
      · exact Or.inr hm

lemma mem_data_dropVar (ds : Dataset) (x : String) (e : String × Var)
    (h : e ∈ (dropVar ds x).data_vars) : e ∈ ds.data_vars ∧ e.1 ≠ x := by
  have := List.mem_filter.mp h
  refine ⟨this.1, ?_⟩
  simpa using this.2

lemma mem_data_dropVar_keep (ds : Dataset) (x : String) (e : String × Var)
    (h : e ∈ ds.data_vars) (hne : e.1 ≠ x) : e ∈ (dropVar ds x).data_vars :=
  List.mem_filter.mpr ⟨h, by simpa using hne⟩

lemma mem_allVars_dropVar_sub (ds : Dataset) (x : String) (e : String × Var)
    (h : e ∈ allVars (dropVar ds x)) : e ∈ allVars ds := by
  rw [allVars_dropVar] at h
  exact (List.mem_filter.mp h).1

lemma mem_allVars_dropDims_sub (ds : Dataset) (d : String) (e : String × Var)
    (h : e ∈ allVars (dropDims ds d)) : e ∈ allVars ds := by
  rw [allVars_dropDims] at h
  exact (List.mem_filter.mp h).1

/-! ### Well-formedness preservation -/

lemma map_fst_replaceEntry (l : List (String × Var)) (x : String) (w : Var) :
    (replaceEntry l x w).map Prod.fst = l.map Prod.fst := by
  induction l with
  | nil => rfl
  | cons e t ih =>
    show (if e.1 == x then (x, w) else e).1 :: (replaceEntry t x w).map Prod.fst = _
    by_cases he : e.1 = x
    · simp [he, ih]
    · simp [he, ih]

lemma not_mem_map_fst_of_any_false (l : List (String × Var)) (x : String)
    (h : l.any (fun e => e.1 == x) = false) : x ∉ l.map Prod.fst := by
  intro hx
  obtain ⟨e, he, hfst⟩ := List.mem_map.mp hx
  have := (List.any_eq_false.mp h) e he
  simp [hfst] at this

lemma namesNodup_setVar (ds : Dataset) (x : String) (w : Var)
    (h : namesNodup ds) : namesNodup (setVar ds x w) := by
  unfold namesNodup allVars at h ⊢
  unfold setVar
  by_cases h1 : ds.data_vars.any (fun e => e.1 == x) = true
  · rw [if_pos h1]
    show ((replaceEntry ds.data_vars x w ++ ds.coords).map Prod.fst).Nodup
    rw [List.map_append, map_fst_replaceEntry, ← List.map_append]
    exact h
  · rw [if_neg h1]
    by_cases h2 : ds.coords.any (fun e => e.1 == x) = true
    · rw [if_pos h2]
      show ((ds.data_vars ++ replaceEntry ds.coords x w).map Prod.fst).Nodup
      rw [List.map_append, map_fst_replaceEntry, ← List.map_append]
      exact h
    · rw [if_neg h2]
      show (((ds.data_vars ++ [(x, w)]) ++ ds.coords).map Prod.fst).Nodup
      have hshape : ((ds.data_vars ++ [(x, w)]) ++ ds.coords).map Prod.fst =
          ds.data_vars.map Prod.fst ++ x :: ds.coords.map Prod.fst := by
        simp
      rw [hshape, List.nodup_middle, List.nodup_cons]
      constructor
      · intro hx
        rcases List.mem_append.mp hx with hm | hm
        · exact not_mem_map_fst_of_any_false _ _ (Bool.not_eq_true _ ▸ h1) hm
        · exact not_mem_map_fst_of_any_false _ _ (Bool.not_eq_true _ ▸ h2) hm
      · rw [← List.map_append]
        exact h

lemma namesNodup_dropVar (ds : Dataset) (x : String) (h : namesNodup ds) :
    namesNodup (dropVar ds x) := by
  unfold namesNodup at h ⊢
  rw [allVars_dropVar]
  exact h.sublist ((List.filter_sublist _).map Prod.fst)

lemma namesNodup_dropDims (ds : Dataset) (d : String) (h : namesNodup ds) :
    namesNodup (dropDims ds d) := by
  unfold namesNodup at h ⊢
  rw [allVars_dropDims]
  exact h.sublist ((List.filter_sublist _).map Prod.fst)

lemma dimsNodup_setVar (ds : Dataset) (x : String) (w : Var)
    (h : dimsNodup ds) (hw : w.dims.Nodup) : dimsNodup (setVar ds x w) := by
  intro e he
  rcases mem_allVars_setVar _ _ _ _ he with rfl | hm
  · exact hw
  · exact h e hm

lemma dimsNodup_dropVar (ds : Dataset) (x : String) (h : dimsNodup ds) :
    dimsNodup (dropVar ds x) := by
  intro e he
  exact h e (mem_allVars_dropVar_sub _ _ _ he)

lemma dimsNodup_dropDims (ds : Dataset) (d : String) (h : dimsNodup ds) :
    dimsNodup (dropDims ds d) := by
  intro e he
  exact h e (mem_allVars_dropDims_sub _ _ _ he)

lemma namesNodup_addSlices (n : ℕ) (v : Var) (var : String) (out : Dataset)
    (h : namesNodup out) : namesNodup (addSlices n v var out) := by
  induction n with
  | zero => exact h
  | succ n ih =>
    rw [addSlices_succ]
    exact namesNodup_setVar _ _ _ ih

lemma dimsNodup_addSlices (n : ℕ) (v : Var) (var : String) (out : Dataset)
    (h : dimsNodup out) (hv : v.dims.Nodup) : dimsNodup (addSlices n v var out) := by
  induction n with
  | zero => exact h
  | succ n ih =>
    rw [addSlices_succ]
    exact dimsNodup_setVar _ _ _ ih (iselVar_dims_nodup _ _ _ hv)

/-! ### Lookup lemmas for dimension dropping -/

lemma lookupL_none_iff (l : List (String × Var)) (x : String) :
    lookupL l x = none ↔ ∀ e ∈ l, e.1 ≠ x := by
  unfold lookupL
  constructor
  · intro h e he
    cases hf : l.find? (fun e => e.1 == x) with
    | none =>
      have := List.find?_eq_none.mp hf e he
      simpa using this
    | some a => rw [hf] at h; simp at h
  · intro h
    rw [List.find?_eq_none.mpr (fun e he => by simpa using h e he)]
    rfl

lemma lookup_dropDims_none (ds : Dataset) (d x : String)
    (h : lookupVar ds x = none) : lookupVar (dropDims ds d) x = none := by
  unfold lookupVar at h ⊢
  rw [allVars_dropDims]
  rw [lookupL_none_iff] at h ⊢
  intro e he
  exact h e (List.mem_filter.mp he).1

lemma lookup_dropDims_keep (ds : Dataset) (d x : String) (w : Var)
    (hnd : namesNodup ds) (h : lookupVar ds x = some w) (hw : d ∉ w.dims) :
    lookupVar (dropDims ds d) x = some w := by
  have hm : (x, w) ∈ allVars ds := lookupL_mem _ _ _ h
  have hm2 : (x, w) ∈ allVars (dropDims ds d) := by
    rw [allVars_dropDims]
    refine List.mem_filter.mpr ⟨hm, ?_⟩
    simpa using hw
  exact lookupL_eq_of_mem_nodup _ _ _ (namesNodup_dropDims ds d hnd) hm2

lemma hasDim_dropDims_self (ds : Dataset) (d : String) :
    hasDim (dropDims ds d) d = false := by
  unfold hasDim
  rw [allVars_dropDims]
  rw [List.any_eq_false]
  intro e he
  have := (List.mem_filter.mp he).2
  simpa using this

lemma hasDim_false_dropVar (ds : Dataset) (x d : String)
    (h : hasDim ds d = false) : hasDim (dropVar ds x) d = false := by
  unfold hasDim at h ⊢
  rw [allVars_dropVar, List.any_eq_false]
  intro e he
  exact (List.any_eq_false.mp h) e (List.mem_filter.mp he).1

lemma hasDim_forall (ds : Dataset) (d : String) (h : hasDim ds d = false) :
    ∀ e ∈ allVars ds, d ∉ e.2.dims := by
  intro e he hd
  have := (List.any_eq_false.mp h) e he
  simp at this
  exact this hd

lemma hasDim_true_of_mem (ds : Dataset) (d : String) (e : String × Var)
    (he : e ∈ allVars ds) (hd : d ∈ e.2.dims) : hasDim ds d = true := by
  unfold hasDim
  rw [List.any_eq_true]
  exact ⟨e, he, by simpa using hd⟩

/-! ### Lemmas about one candidate-flattening step -/

lemma flattenOne_eq_of_none (n : ℕ) (d : Dataset) (c : String)
    (h : lookupVar d c = none) : flattenOne n d c = d := by
  unfold flattenOne
  rw [h]

lemma flattenOne_eq_of_nodim (n : ℕ) (d : Dataset) (c : String) (v : Var)
    (h : lookupVar d c = some v) (hd : ordered_seq_dim ∉ v.dims) :
    flattenOne n d c = d := by
  unfold flattenOne
  rw [h]
  simp [hd]

lemma flattenOne_eq_of_dim (n : ℕ) (d : Dataset) (c : String) (v : Var)
    (h : lookupVar d c = some v) (hd : ordered_seq_dim ∈ v.dims) :
    flattenOne n d c = dropVar (addSlices n v c d) c := by
  unfold flattenOne
  rw [h]
  simp [hd]

lemma lookup_flattenOne_other (n : ℕ) (d : Dataset) (c x : String)
    (hxc : x ≠ c) (hxs : ∀ i < n, x ≠ sliceName c i) :
    lookupVar (flattenOne n d c) x = lookupVar d x := by
  cases hl : lookupVar d c with
  | none => rw [flattenOne_eq_of_none n d c hl]
  | some v =>
    by_cases hd : ordered_seq_dim ∈ v.dims
    · rw [flattenOne_eq_of_dim n d c v hl hd, lookup_dropVar, if_neg hxc]
      exact lookup_addSlices_other n v c d x hxs
    · rw [flattenOne_eq_of_nodim n d c v hl hd]

lemma lookup_flattenOne_flattened (n : ℕ) (d : Dataset) (c : String) (v : Var)
    (h : lookupVar d c = some v) (hd : ordered_seq_dim ∈ v.dims) :
    lookupVar (flattenOne n d c) c = none ∧
    ∀ i < n, lookupVar (flattenOne n d c) (sliceName c i) =
      some (iselVar v ordered_seq_dim i) := by
  rw [flattenOne_eq_of_dim n d c v h hd]
  constructor
  · rw [lookup_dropVar, if_pos rfl]
  · intro i hi
    rw [lookup_dropVar, if_neg (sliceName_ne_base c i)]
    exact lookup_addSlices_slice n v c d i hi

lemma namesNodup_flattenOne (n : ℕ) (d : Dataset) (c : String)
    (h : namesNodup d) : namesNodup (flattenOne n d c) := by
  cases hl : lookupVar d c with
  | none => rw [flattenOne_eq_of_none n d c hl]; exact h
  | some v =>
    by_cases hd : ordered_seq_dim ∈ v.dims
    · rw [flattenOne_eq_of_dim n d c v hl hd]
      exact namesNodup_dropVar _ _ (namesNodup_addSlices _ _ _ _ h)
    · rw [flattenOne_eq_of_nodim n d c v hl hd]; exact h

lemma dimsNodup_flattenOne (n : ℕ) (d : Dataset) (c : String)
    (h : dimsNodup d) : dimsNodup (flattenOne n d c) := by
  cases hl : lookupVar d c with
  | none => rw [flattenOne_eq_of_none n d c hl]; exact h
  | some v =>
    by_cases hd : ordered_seq_dim ∈ v.dims
    · rw [flattenOne_eq_of_dim n d c v hl hd]
      exact dimsNodup_dropVar _ _
        (dimsNodup_addSlices _ _ _ _ h (h (c, v) (lookupL_mem _ _ _ hl)))
    · rw [flattenOne_eq_of_nodim n d c v hl hd]; exact h

lemma flattenOne_data_dim_sub (n : ℕ) (d : Dataset) (c : String)
    (h2 : dimsNodup d) (e : String × Var)
    (he : e ∈ (flattenOne n d c).data_vars) (hdim : ordered_seq_dim ∈ e.2.dims) :
    e ∈ d.data_vars := by
  cases hl : lookupVar d c with
  | none => rw [flattenOne_eq_of_none n d c hl] at he; exact he
  | some v =>
    by_cases hd : ordered_seq_dim ∈ v.dims
    · rw [flattenOne_eq_of_dim n d c v hl hd] at he
      have hdx := mem_data_dropVar _ _ _ he
      rcases mem_data_addSlices _ _ _ _ _ hdx.1 with ⟨i, hi, rfl⟩ | hm
      · exact absurd hdim (iselVar_not_dim v i (h2 (c, v) (lookupL_mem _ _ _ hl)))
      · exact hm
    · rw [flattenOne_eq_of_nodim n d c v hl hd] at he; exact he

lemma flattenOne_dim_invariant (n : ℕ) (d : Dataset) (c : String) (rest : List String)
    (h1 : namesNodup d) (h2 : dimsNodup d)
    (hinv : ∀ e ∈ d.data_vars, ordered_seq_dim ∈ e.2.dims → e.1 ∈ c :: rest) :
    ∀ e ∈ (flattenOne n d c).data_vars, ordered_seq_dim ∈ e.2.dims → e.1 ∈ rest := by
  intro e he hdim
  cases hl : lookupVar d c with
  | none =>
    rw [flattenOne_eq_of_none n d c hl] at he
    rcases List.mem_cons.mp (hinv e he hdim) with hec | hr
    · exfalso
      have : lookupVar d c = some e.2 := by
        apply lookupL_eq_of_mem_nodup _ _ _ h1
        have : e = (c, e.2) := by
          rw [← hec]
        rw [← this]
        exact List.mem_append.mpr (Or.inl he)
      rw [hl] at this
      exact absurd this (by simp)
    · exact hr
  | some v =>
    by_cases hd : ordered_seq_dim ∈ v.dims
    · rw [flattenOne_eq_of_dim n d c v hl hd] at he
      have hdx := mem_data_dropVar _ _ _ he
      rcases mem_data_addSlices _ _ _ _ _ hdx.1 with ⟨i, hi, rfl⟩ | hm
      · exact absurd hdim (iselVar_not_dim v i (h2 (c, v) (lookupL_mem _ _ _ hl)))
      · rcases List.mem_cons.mp (hinv e hm hdim) with hec | hr
        · exact absurd hec hdx.2
        · exact hr
    · rw [flattenOne_eq_of_nodim n d c v hl hd] at he
      rcases List.mem_cons.mp (hinv e he hdim) with hec | hr
      · exfalso
        have hsome : lookupVar d c = some e.2 := by
          apply lookupL_eq_of_mem_nodup _ _ _ h1
          have heq : e = (c, e.2) := by
            rw [← hec]
          rw [← heq]
          exact List.mem_append.mpr (Or.inl he)
        rw [hl] at hsome
        have : e.2 = v := by
          simpa using hsome.symm
        rw [this] at hdim
        exact hd hdim
      · exact hr

/-! ### Lemmas about the candidate loop -/

lemma namesNodup_flattenLoop (n : ℕ) (todo : List String) (d : Dataset)
    (h : namesNodup d) : namesNodup (flattenLoop n d todo) := by
  induction todo generalizing d with
  | nil => exact h
  | cons a rest ih => exact ih _ (namesNodup_flattenOne n d a h)

lemma dimsNodup_flattenLoop (n : ℕ) (todo : List String) (d : Dataset)
    (h : dimsNodup d) : dimsNodup (flattenLoop n d todo) := by
  induction todo generalizing d with
  | nil => exact h
  | cons a rest ih => exact ih _ (dimsNodup_flattenOne n d a h)

lemma flattenLoop_data_dim_sub (n : ℕ) (todo : List String) (d : Dataset)
    (h2 : dimsNodup d) (e : String × Var)
    (he : e ∈ (flattenLoop n d todo).data_vars) (hdim : ordered_seq_dim ∈ e.2.dims) :
    e ∈ d.data_vars := by
  induction todo generalizing d with
  | nil => exact he
  | cons a rest ih =>
    have hsub := ih (flattenOne n d a) (dimsNodup_flattenOne n d a h2) he
    exact flattenOne_data_dim_sub n d a h2 e hsub hdim

lemma flattenLoop_dim_invariant (n : ℕ) (todo : List String) (d : Dataset)
    (h1 : namesNodup d) (h2 : dimsNodup d)
    (hinv : ∀ e ∈ d.data_vars, ordered_seq_dim ∈ e.2.dims → e.1 ∈ todo) :
    ∀ e ∈ (flattenLoop n d todo).data_vars, ordered_seq_dim ∉ e.2.dims := by
  induction todo generalizing d with
  | nil =>
    intro e he hdim
    exact absurd (hinv e he hdim) (by simp)
  | cons a rest ih =>
    intro e he
    exact ih (flattenOne n d a) (namesNodup_flattenOne n d a h1)
      (dimsNodup_flattenOne n d a h2)
      (flattenOne_dim_invariant n d a rest h1 h2 hinv) e he

lemma foldl_lookup_preserved (n : ℕ) (rest : List String) (d : Dataset) (x : String)
    (hx : ∀ b ∈ rest, x ≠ b ∧ ∀ j : ℕ, x ≠ sliceName b j) :
    lookupVar (rest.foldl (flattenOne n) d) x = lookupVar d x := by
  induction rest generalizing d with
  | nil => rfl
  | cons b rest ih =>
    show lookupVar (rest.foldl (flattenOne n) (flattenOne n d b)) x = _
    rw [ih (flattenOne n d b) (fun b' hb' => hx b' (by simp [hb']))]
    exact lookup_flattenOne_other n d b x (hx b (by simp)).1
      (fun i _ => (hx b (by simp)).2 i)

lemma flattenLoop_flattens (n : ℕ) (todo : List String) (d : Dataset) (c : String) (v : Var)
    (h1 : namesNodup d)
    (hnu : ∀ s ∈ todo, ('_' : Char) ∉ s.data)
    (hnd : todo.Nodup)
    (hc : c ∈ todo) (hl : lookupVar d c = some v) (hdim : ordered_seq_dim ∈ v.dims) :
    lookupVar (flattenLoop n d todo) c = none ∧
    ∀ i < n, lookupVar (flattenLoop n d todo) (sliceName c i) =
      some (iselVar v ordered_seq_dim i) := by
  induction todo generalizing d with
  | nil => simp at hc
  | cons a rest ih =>
    rcases List.mem_cons.mp hc with rfl | hcr
    · -- c is the head candidate: it is flattened now and untouched afterwards
      have hstep := lookup_flattenOne_flattened n d c v hl hdim
      have hanotr : c ∉ rest := (List.nodup_cons.mp hnd).1
      constructor
      · show lookupVar (rest.foldl (flattenOne n) (flattenOne n d c)) c = none
        rw [foldl_lookup_preserved n rest (flattenOne n d c) c ?fresh]
        · exact hstep.1
        case fresh =>
          intro b hb
          refine ⟨fun hcb => hanotr (hcb ▸ hb), fun j => ?_⟩
          exact fun hcs => (sliceName_ne_noUnderscore b c j (hnu c (by simp))) hcs.symm
      · intro i hi
        show lookupVar (rest.foldl (flattenOne n) (flattenOne n d c)) (sliceName c i) = _
        rw [foldl_lookup_preserved n rest (flattenOne n d c) (sliceName c i) ?fresh2]
        · exact hstep.2 i hi
        case fresh2 =>
          intro b hb
          constructor
          · exact sliceName_ne_noUnderscore c b i (hnu b (by simp [hb]))
          · intro j
            apply sliceName_ne_cross c b i j (hnu c (by simp)) (hnu b (by simp [hb]))
            exact fun hcb => hanotr (hcb ▸ hb)
    · -- c is processed later: the head step does not disturb it
      have hca : c ≠ a := fun hc' => (List.nodup_cons.mp hnd).1 (hc' ▸ hcr)
      have hl' : lookupVar (flattenOne n d a) c = some v := by
        rw [lookup_flattenOne_other n d a c hca ?fr]
        · exact hl
        case fr =>
          intro i _
          exact fun hcs => (sliceName_ne_noUnderscore a c i (hnu c (by simp [hcr]))) hcs.symm
      exact ih (flattenOne n d a) (namesNodup_flattenOne n d a h1)
        (fun s hs => hnu s (by simp [hs])) (List.nodup_cons.mp hnd).2 hcr hl'

lemma foldl_flattenOne_id (m : ℕ) (todo : List String) (d : Dataset)
    (h : ∀ c ∈ todo, flattenOne m d c = d) :
    todo.foldl (flattenOne m) d = d := by
  induction todo with
  | nil => rfl
  | cons a rest ih =>
    show rest.foldl (flattenOne m) (flattenOne m d a) = d
    rw [h a (by simp)]
    exact ih (fun c hc => h c (by simp [hc]))

/-! ### Processed candidates stay flattened -/

lemma step_preserves_clean (n : ℕ) (d : Dataset) (b c : String)
    (hcb : ('_' : Char) ∉ c.data)
    (hinv : lookupVar d c = none ∨
      ∀ w, lookupVar d c = some w → ordered_seq_dim ∉ w.dims) :
    lookupVar (flattenOne n d b) c = none ∨
      ∀ w, lookupVar (flattenOne n d b) c = some w → ordered_seq_dim ∉ w.dims := by
  by_cases hcbeq : c = b
  · subst hcbeq
    cases hl : lookupVar d c with
    | none =>
      left
      rw [flattenOne_eq_of_none n d c hl]
      exact hl
    | some v =>
      by_cases hvd : ordered_seq_dim ∈ v.dims
      · left
        exact (lookup_flattenOne_flattened n d c v hl hvd).1
      · rw [flattenOne_eq_of_nodim n d c v hl hvd]
        exact hinv
  · have heq : lookupVar (flattenOne n d b) c = lookupVar d c :=
      lookup_flattenOne_other n d b c hcbeq
        (fun i _ hcs => (sliceName_ne_noUnderscore b c i hcb) hcs.symm)
    rw [heq]
    exact hinv

lemma foldl_preserves_clean (n : ℕ) (rest : List String) (d : Dataset) (c : String)
    (hcb : ('_' : Char) ∉ c.data)
    (hinv : lookupVar d c = none ∨
      ∀ w, lookupVar d c = some w → ordered_seq_dim ∉ w.dims) :
    lookupVar (rest.foldl (flattenOne n) d) c = none ∨
      ∀ w, lookupVar (rest.foldl (flattenOne n) d) c = some w →
        ordered_seq_dim ∉ w.dims := by
  induction rest generalizing d with
  | nil => exact hinv
  | cons b rest ih =>
    exact ih (flattenOne n d b) (step_preserves_clean n d b c hcb hinv)

lemma flattenLoop_processed (n : ℕ) (todo : List String) (d : Dataset) (c : String)
    (hnu : ∀ s ∈ todo, ('_' : Char) ∉ s.data) (hc : c ∈ todo) :
    lookupVar (flattenLoop n d todo) c = none ∨
      ∀ w, lookupVar (flattenLoop n d todo) c = some w →
        ordered_seq_dim ∉ w.dims := by
  induction todo generalizing d with
  | nil => simp at hc
  | cons a rest ih =>
    rcases List.mem_cons.mp hc with rfl | hcr
    · have hstep : lookupVar (flattenOne n d c) c = none ∨
          ∀ w, lookupVar (flattenOne n d c) c = some w →
            ordered_seq_dim ∉ w.dims := by
        cases hl : lookupVar d c with
        | none =>
          left
          rw [flattenOne_eq_of_none n d c hl]
          exact hl
        | some v =>
          by_cases hvd : ordered_seq_dim ∈ v.dims
          · left
            exact (lookup_flattenOne_flattened n d c v hl hvd).1
          · right
            intro w hw
            rw [flattenOne_eq_of_nodim n d c v hl hvd, hl] at hw
            have : w = v := by simpa using hw.symm
            rw [this]
            exact hvd
      exact foldl_preserves_clean n rest (flattenOne n d c) c (hnu c (by simp)) hstep
    · exact ih (flattenOne n d a) (fun s hs => hnu s (by simp [hs])) hcr

/-! ### Lemmas about the two cleanup steps -/

lemma memVar_dropSeqCoordVar_self (d : Dataset) :
    memVar (dropSeqCoordVar d) ordered_seq_dim = false := by
  unfold dropSeqCoordVar
  by_cases h : memVar d ordered_seq_dim = true
  · rw [if_pos h]
    exact memVar_dropVar_self _ _
  · rw [if_neg h]
    exact Bool.not_eq_true _ ▸ h

lemma lookup_none_of_memVar_false (d : Dataset) (x : String)
    (h : memVar d x = false) : lookupVar d x = none := by
  unfold memVar at h
  cases hl : lookupVar d x with
  | none => rfl
  | some w => rw [hl] at h; simp at h

lemma mem_data_dropSeqCoordVar_keep (d : Dataset) (e : String × Var)
    (h : e ∈ d.data_vars) (hne : e.1 ≠ ordered_seq_dim) :
    e ∈ (dropSeqCoordVar d).data_vars := by
  unfold dropSeqCoordVar
  by_cases hm : memVar d ordered_seq_dim = true
  · rw [if_pos hm]
    exact mem_data_dropVar_keep _ _ _ h hne
  · rw [if_neg hm]
    exact h

lemma mem_allVars_dropSeqCoordVar_sub (d : Dataset) (e : String × Var)
    (h : e ∈ allVars (dropSeqCoordVar d)) : e ∈ allVars d := by
  unfold dropSeqCoordVar at h
  by_cases hm : memVar d ordered_seq_dim = true
  · rw [if_pos hm] at h
    exact mem_allVars_dropVar_sub _ _ _ h
  · rw [if_neg hm] at h
    exact h

lemma dropSeqDimIfUnused_eq_of_used (d : Dataset) (e : String × Var)
    (he : e ∈ d.data_vars) (hd : ordered_seq_dim ∈ e.2.dims) :
    dropSeqDimIfUnused d = d := by
  unfold dropSeqDimIfUnused
  have hasd : hasDim d ordered_seq_dim = true :=
    hasDim_true_of_mem d _ e (List.mem_append.mpr (Or.inl he)) hd
  rw [if_pos hasd, if_pos]
  rw [List.any_eq_true]
  exact ⟨e, he, by simpa using hd⟩

lemma hasDim_dropSeqDimIfUnused_false (d : Dataset)
    (hno : ∀ e ∈ d.data_vars, ordered_seq_dim ∉ e.2.dims) :
    hasDim (dropSeqDimIfUnused d) ordered_seq_dim = false := by
  unfold dropSeqDimIfUnused
  by_cases h : hasDim d ordered_seq_dim = true
  · rw [if_pos h]
    have hany : d.data_vars.any (fun e => e.2.dims.contains ordered_seq_dim) = false := by
      rw [List.any_eq_false]
      intro e he
      simpa using hno e he
    rw [if_neg (by rw [hany]; simp)]
    exact hasDim_dropDims_self d ordered_seq_dim
  · rw [if_neg h]
    exact Bool.not_eq_true _ ▸ h

lemma hasDim_false_dropSeqCoordVar (d : Dataset)
    (h : hasDim d ordered_seq_dim = false) :
    hasDim (dropSeqCoordVar d) ordered_seq_dim = false := by
  unfold dropSeqCoordVar
  by_cases hm : memVar d ordered_seq_dim = true
  · rw [if_pos hm]
    exact hasDim_false_dropVar d _ _ h
  · rw [if_neg hm]
    exact h

lemma dropSeqCoordVar_eq_of_absent (d : Dataset)
    (h : memVar d ordered_seq_dim = false) : dropSeqCoordVar d = d := by
  unfold dropSeqCoordVar
  rw [if_neg (by simp [h])]

/-! ### C3: the flatten-count law -/

/-- C3: for a candidate variable `c` present in the dataset and using the
sequence axis, with `K = dimSize ds orderedSequenceData`, the Sequence
Flattener's output binds `c_i` (name `c ++ "_" ++ toString i`, no
padding, no offset) to the `i`-th slice of `c` along the sequence axis
for every `i < K`, and no longer contains `c` itself. -/
theorem C3_flatten_count (ds : Dataset) (c : String) (v : Var)
    (h1 : namesNodup ds) (hv : v.dims.Nodup)
    (hc : c ∈ SEQUENCE_VARS) (hl : lookupVar ds c = some v)
    (hdim : ordered_seq_dim ∈ v.dims) :
    lookupVar (flatten_sequence_vars ds SEQUENCE_VARS) c = none ∧
    ∀ i < dimSize ds ordered_seq_dim,
      lookupVar (flatten_sequence_vars ds SEQUENCE_VARS) (sliceName c i) =
        some (iselVar v ordered_seq_dim i) := by
  have hd : hasDim ds ordered_seq_dim = true :=
    hasDim_true_of_mem ds _ (c, v) (lookupL_mem _ _ _ hl) hdim
  have hflat : flatten_sequence_vars ds SEQUENCE_VARS =
      dropSeqCoordVar (dropSeqDimIfUnused
        (flattenLoop (dimSize ds ordered_seq_dim) ds SEQUENCE_VARS)) := by
    unfold flatten_sequence_vars
    rw [if_pos hd]
  have hmid := flattenLoop_flattens (dimSize ds ordered_seq_dim) SEQUENCE_VARS ds c v h1
    no_underscore_seq_vars (by decide) hc hl hdim
  have hmidnodup : namesNodup (flattenLoop (dimSize ds ordered_seq_dim) ds SEQUENCE_VARS) :=
    namesNodup_flattenLoop _ _ _ h1
  have hcd : c ≠ ordered_seq_dim := by
    have : ∀ s ∈ SEQUENCE_VARS, s ≠ ordered_seq_dim := by decide
    exact this c hc
  constructor
  · rw [hflat]
    have hstep : lookupVar (dropSeqDimIfUnused
        (flattenLoop (dimSize ds ordered_seq_dim) ds SEQUENCE_VARS)) c = none := by
      unfold dropSeqDimIfUnused
      by_cases ha : hasDim (flattenLoop (dimSize ds ordered_seq_dim) ds SEQUENCE_VARS)
          ordered_seq_dim = true
      · rw [if_pos ha]
        by_cases hb : (flattenLoop (dimSize ds ordered_seq_dim) ds
            SEQUENCE_VARS).data_vars.any
            (fun e => e.2.dims.contains ordered_seq_dim) = true
        · rw [if_pos hb]
          exact hmid.1
        · rw [if_neg hb]
          exact lookup_dropDims_none _ _ _ hmid.1
      · rw [if_neg ha]
        exact hmid.1
    unfold dropSeqCoordVar
    by_cases hm : memVar (dropSeqDimIfUnused
        (flattenLoop (dimSize ds ordered_seq_dim) ds SEQUENCE_VARS))
        ordered_seq_dim = true
    · rw [if_pos hm, lookup_dropVar, if_neg hcd]
      exact hstep
    · rw [if_neg hm]
      exact hstep
  · intro i hi
    have hs := hmid.2 i hi
    have hsnd : ordered_seq_dim ∉ (iselVar v ordered_seq_dim i).dims :=
      iselVar_not_dim v i hv
    rw [hflat]
    have hstep : lookupVar (dropSeqDimIfUnused
        (flattenLoop (dimSize ds ordered_seq_dim) ds SEQUENCE_VARS)) (sliceName c i) =
        some (iselVar v ordered_seq_dim i) := by
      unfold dropSeqDimIfUnused
      by_cases ha : hasDim (flattenLoop (dimSize ds ordered_seq_dim) ds SEQUENCE_VARS)
          ordered_seq_dim = true
      · rw [if_pos ha]
        by_cases hb : (flattenLoop (dimSize ds ordered_seq_dim) ds
            SEQUENCE_VARS).data_vars.any
            (fun e => e.2.dims.contains ordered_seq_dim) = true
        · rw [if_pos hb]
          exact hs
        · rw [if_neg hb]
          exact lookup_dropDims_keep _ _ _ _ hmidnodup hs hsnd
      · rw [if_neg ha]
        exact hs
    unfold dropSeqCoordVar
    by_cases hm : memVar (dropSeqDimIfUnused
        (flattenLoop (dimSize ds ordered_seq_dim) ds SEQUENCE_VARS))
        ordered_seq_dim = true
    · rw [if_pos hm, lookup_dropVar,
        if_neg (sliceName_ne_noUnderscore c ordered_seq_dim i no_underscore_seq_dim)]
      exact hstep
    · rw [if_neg hm]
      exact hstep

theorem C3_flatten_count_witness :
    lookupVar (flatten_sequence_vars
        ⟨[("shts", ⟨["step", "orderedSequenceData"], [1, 2], [3, 4]⟩)],
         [("orderedSequenceData", ⟨["orderedSequenceData"], [2], [0, 1]⟩)]⟩
      SEQUENCE_VARS) "shts" = none ∧
    lookupVar (flatten_sequence_vars
        ⟨[("shts", ⟨["step", "orderedSequenceData"], [1, 2], [3, 4]⟩)],
         [("orderedSequenceData", ⟨["orderedSequenceData"], [2], [0, 1]⟩)]⟩
      SEQUENCE_VARS) (sliceName "shts" 1) =
      some (iselVar ⟨["step", "orderedSequenceData"], [1, 2], [3, 4]⟩ ordered_seq_dim 1) :=
  ⟨(C3_flatten_count
      ⟨[("shts", ⟨["step", "orderedSequenceData"], [1, 2], [3, 4]⟩)],
       [("orderedSequenceData", ⟨["orderedSequenceData"], [2], [0, 1]⟩)]⟩
      "shts" ⟨["step", "orderedSequenceData"], [1, 2], [3, 4]⟩
      (by decide) (by decide) (by decide) (by decide) (by decide)).1,
   (C3_flatten_count
      ⟨[("shts", ⟨["step", "orderedSequenceData"], [1, 2], [3, 4]⟩)],
       [("orderedSequenceData", ⟨["orderedSequenceData"], [2], [0, 1]⟩)]⟩
      "shts" ⟨["step", "orderedSequenceData"], [1, 2], [3, 4]⟩
      (by decide) (by decide) (by decide) (by decide) (by decide)).2 1 (by decide)⟩

/-! ### C4: the axis-cleanup law -/

/-- C4 (counterexample to the claim as stated): a dataset holding a data
variable `foo` outside the candidate list that uses the sequence axis
still has the `orderedSequenceData` dimension after the Sequence
Flattener runs, so the axis is not unconditionally absent afterwards. -/
theorem C4_axis_cleanup_counterexample :
    hasDim (flatten_sequence_vars
      ⟨[("foo", ⟨["orderedSequenceData"], [2], [0, 1]⟩)], []⟩ SEQUENCE_VARS)
      ordered_seq_dim = true := by
  decide

/-- C4 (amended): provided every data variable that uses the sequence
axis is one of the configured candidates, the Sequence Flattener's
output has no `orderedSequenceData` dimension and no coordinate variable
indexed by it. -/
theorem C4_axis_cleanup (ds : Dataset)
    (h1 : namesNodup ds) (h2 : dimsNodup ds)
    (hcand : ∀ e ∈ ds.data_vars, ordered_seq_dim ∈ e.2.dims → e.1 ∈ SEQUENCE_VARS) :
    hasDim (flatten_sequence_vars ds SEQUENCE_VARS) ordered_seq_dim = false ∧
    ∀ e ∈ (flatten_sequence_vars ds SEQUENCE_VARS).coords,
      ordered_seq_dim ∉ e.2.dims := by
  by_cases hd : hasDim ds ordered_seq_dim = true
  · have hflat : flatten_sequence_vars ds SEQUENCE_VARS =
        dropSeqCoordVar (dropSeqDimIfUnused
          (flattenLoop (dimSize ds ordered_seq_dim) ds SEQUENCE_VARS)) := by
      unfold flatten_sequence_vars
      rw [if_pos hd]
    have hmid := flattenLoop_dim_invariant (dimSize ds ordered_seq_dim)
      SEQUENCE_VARS ds h1 h2 hcand
    have hmain : hasDim (flatten_sequence_vars ds SEQUENCE_VARS) ordered_seq_dim = false := by
      rw [hflat]
      exact hasDim_false_dropSeqCoordVar _
        (hasDim_dropSeqDimIfUnused_false _ hmid)
    refine ⟨hmain, ?_⟩
    intro e he
    exact hasDim_forall _ _ hmain e (List.mem_append.mpr (Or.inr he))
  · have hd' : hasDim ds ordered_seq_dim = false := Bool.not_eq_true _ ▸ hd
    have hflat : flatten_sequence_vars ds SEQUENCE_VARS = ds := by
      unfold flatten_sequence_vars
      rw [if_neg hd]
    rw [hflat]
    exact ⟨hd', fun e he => hasDim_forall _ _ hd' e (List.mem_append.mpr (Or.inr he))⟩

theorem C4_axis_cleanup_witness :
    hasDim (flatten_sequence_vars
      ⟨[("shts", ⟨["step", "orderedSequenceData"], [1, 2], [3, 4]⟩)],
       [("orderedSequenceData", ⟨["orderedSequenceData"], [2], [0, 1]⟩)]⟩
      SEQUENCE_VARS) ordered_seq_dim = false :=
  (C4_axis_cleanup
    ⟨[("shts", ⟨["step", "orderedSequenceData"], [1, 2], [3, 4]⟩)],
     [("orderedSequenceData", ⟨["orderedSequenceData"], [2], [0, 1]⟩)]⟩
    (by decide) (by decide) (by decide)).1

/-! ### C10: non-candidate users keep the axis, the coordinate still goes -/

/-- C10: if after the candidate loop some data variable outside the
candidate list still uses the sequence dimension (and, per xarray's data
model, is not itself named after that dimension), the Sequence Flattener
keeps the dimension in the dataset, yet any variable named
`orderedSequenceData` — in particular its coordinate — is still removed. -/
theorem C10_noncandidate_keeps_dim (ds : Dataset) (e : String × Var)
    (hd : hasDim ds ordered_seq_dim = true)
    (hmem : e ∈ (flattenLoop (dimSize ds ordered_seq_dim) ds SEQUENCE_VARS).data_vars)
    (hnc : e.1 ∉ SEQUENCE_VARS)
    (hdim : ordered_seq_dim ∈ e.2.dims)
    (hself : e.1 ∉ e.2.dims) :
    hasDim (flatten_sequence_vars ds SEQUENCE_VARS) ordered_seq_dim = true ∧
    lookupVar (flatten_sequence_vars ds SEQUENCE_VARS) ordered_seq_dim = none := by
  have hname : e.1 ≠ ordered_seq_dim := fun hc => hself (hc ▸ hdim)
  have hflat : flatten_sequence_vars ds SEQUENCE_VARS =
      dropSeqCoordVar (dropSeqDimIfUnused
        (flattenLoop (dimSize ds ordered_seq_dim) ds SEQUENCE_VARS)) := by
    unfold flatten_sequence_vars
    rw [if_pos hd]
  have hmid_id : dropSeqDimIfUnused
      (flattenLoop (dimSize ds ordered_seq_dim) ds SEQUENCE_VARS) =
      flattenLoop (dimSize ds ordered_seq_dim) ds SEQUENCE_VARS :=
    dropSeqDimIfUnused_eq_of_used _ e hmem hdim
  rw [hflat, hmid_id]
  constructor
  · have her : e ∈ (dropSeqCoordVar
        (flattenLoop (dimSize ds ordered_seq_dim) ds SEQUENCE_VARS)).data_vars :=
      mem_data_dropSeqCoordVar_keep _ _ hmem hname
    exact hasDim_true_of_mem _ _ e (List.mem_append.mpr (Or.inl her)) hdim
  · exact lookup_none_of_memVar_false _ _ (memVar_dropSeqCoordVar_self _)

theorem C10_noncandidate_keeps_dim_witness :
    hasDim (flatten_sequence_vars
      ⟨[("foo", ⟨["orderedSequenceData"], [2], [5, 6]⟩)],
       [("orderedSequenceData", ⟨["orderedSequenceData"], [2], [0, 1]⟩)]⟩
      SEQUENCE_VARS) ordered_seq_dim = true ∧
    lookupVar (flatten_sequence_vars
      ⟨[("foo", ⟨["orderedSequenceData"], [2], [5, 6]⟩)],
       [("orderedSequenceData", ⟨["orderedSequenceData"], [2], [0, 1]⟩)]⟩
      SEQUENCE_VARS) ordered_seq_dim = none :=
  C10_noncandidate_keeps_dim
    ⟨[("foo", ⟨["orderedSequenceData"], [2], [5, 6]⟩)],
     [("orderedSequenceData", ⟨["orderedSequenceData"], [2], [0, 1]⟩)]⟩
    ("foo", ⟨["orderedSequenceData"], [2], [5, 6]⟩)
    (by decide) (by decide) (by decide) (by decide) (by decide)

/-! ### C8: the flattener is a no-op without the axis, and idempotent -/

/-- C8: if the sequence dimension is absent the Sequence Flattener
returns the dataset unchanged (a no-op, not an error), and running the
flattener twice yields the same dataset as running it once.  The
hypotheses are xarray's dataset invariants: unique variable names,
duplicate-free dimension lists, and no data variable named after one of
its own dimensions. -/
theorem C8_flattener_noop_idempotent (ds : Dataset)
    (h1 : namesNodup ds) (h2 : dimsNodup ds) (h3 : noSelfDim ds) :
    (hasDim ds ordered_seq_dim = false →
      flatten_sequence_vars ds SEQUENCE_VARS = ds) ∧
    flatten_sequence_vars (flatten_sequence_vars ds SEQUENCE_VARS) SEQUENCE_VARS =
      flatten_sequence_vars ds SEQUENCE_VARS := by
  have hnoop : ∀ d : Dataset, hasDim d ordered_seq_dim = false →
      flatten_sequence_vars d SEQUENCE_VARS = d := by
    intro d hdf
    unfold flatten_sequence_vars
    rw [if_neg (by simp [hdf])]
  refine ⟨hnoop ds, ?_⟩
  by_cases hd : hasDim ds ordered_seq_dim = true
  · by_cases hr : hasDim (flatten_sequence_vars ds SEQUENCE_VARS) ordered_seq_dim = true
    · have hflat : flatten_sequence_vars ds SEQUENCE_VARS =
          dropSeqCoordVar (dropSeqDimIfUnused
            (flattenLoop (dimSize ds ordered_seq_dim) ds SEQUENCE_VARS)) := by
        unfold flatten_sequence_vars
        rw [if_pos hd]
      have hmid1 : namesNodup (flattenLoop (dimSize ds ordered_seq_dim) ds SEQUENCE_VARS) :=
        namesNodup_flattenLoop _ _ _ h1
      have hstill : (flattenLoop (dimSize ds ordered_seq_dim) ds
          SEQUENCE_VARS).data_vars.any
          (fun e => e.2.dims.contains ordered_seq_dim) = true := by
        by_contra hcon
        have hcon' : (flattenLoop (dimSize ds ordered_seq_dim) ds
            SEQUENCE_VARS).data_vars.any
            (fun e => e.2.dims.contains ordered_seq_dim) = false :=
          Bool.not_eq_true _ ▸ hcon
        have hno : ∀ e ∈ (flattenLoop (dimSize ds ordered_seq_dim) ds
            SEQUENCE_VARS).data_vars, ordered_seq_dim ∉ e.2.dims := by
          intro e he hdm
          have := List.any_eq_false.mp hcon' e he
          simp at this
          exact this hdm
        have hfd : hasDim (flatten_sequence_vars ds SEQUENCE_VARS)
            ordered_seq_dim = false := by
          rw [hflat]
          exact hasDim_false_dropSeqCoordVar _ (hasDim_dropSeqDimIfUnused_false _ hno)
        exact absurd hr (by simp [hfd])
      obtain ⟨e0, he0, he0c⟩ := List.any_eq_true.mp hstill
      have he0dim : ordered_seq_dim ∈ e0.2.dims := by simpa using he0c
      have hmid_id : dropSeqDimIfUnused
          (flattenLoop (dimSize ds ordered_seq_dim) ds SEQUENCE_VARS) =
          flattenLoop (dimSize ds ordered_seq_dim) ds SEQUENCE_VARS :=
        dropSeqDimIfUnused_eq_of_used _ e0 he0 he0dim
      have hre : flatten_sequence_vars ds SEQUENCE_VARS =
          dropSeqCoordVar (flattenLoop (dimSize ds ordered_seq_dim) ds SEQUENCE_VARS) := by
        rw [hflat, hmid_id]
      have he0ds : e0 ∈ ds.data_vars :=
        flattenLoop_data_dim_sub _ _ _ h2 e0 he0 he0dim
      have he0name : e0.1 ≠ ordered_seq_dim := fun hc => h3 e0 he0ds (hc ▸ he0dim)
      have he0r : e0 ∈ (dropSeqCoordVar
          (flattenLoop (dimSize ds ordered_seq_dim) ds SEQUENCE_VARS)).data_vars :=
        mem_data_dropSeqCoordVar_keep _ _ he0 he0name
      have hrmem : memVar (dropSeqCoordVar
          (flattenLoop (dimSize ds ordered_seq_dim) ds SEQUENCE_VARS))
          ordered_seq_dim = false := memVar_dropSeqCoordVar_self _
      have hloopid : flattenLoop
          (dimSize (dropSeqCoordVar
            (flattenLoop (dimSize ds ordered_seq_dim) ds SEQUENCE_VARS)) ordered_seq_dim)
          (dropSeqCoordVar
            (flattenLoop (dimSize ds ordered_seq_dim) ds SEQUENCE_VARS))
          SEQUENCE_VARS =
          dropSeqCoordVar
            (flattenLoop (dimSize ds ordered_seq_dim) ds SEQUENCE_VARS) := by
        apply foldl_flattenOne_id
        intro c hc
        cases hlr : lookupVar (dropSeqCoordVar
            (flattenLoop (dimSize ds ordered_seq_dim) ds SEQUENCE_VARS)) c with
        | none => exact flattenOne_eq_of_none _ _ _ hlr
        | some u =>
          have humid : (c, u) ∈ allVars
              (flattenLoop (dimSize ds ordered_seq_dim) ds SEQUENCE_VARS) :=
            mem_allVars_dropSeqCoordVar_sub _ _ (lookupL_mem _ _ _ hlr)
          have hlmid : lookupVar
              (flattenLoop (dimSize ds ordered_seq_dim) ds SEQUENCE_VARS) c = some u :=
            lookupL_eq_of_mem_nodup _ _ _ hmid1 humid
          rcases flattenLoop_processed (dimSize ds ordered_seq_dim) SEQUENCE_VARS ds c
              no_underscore_seq_vars hc with hnone | hclean
          · exfalso
            rw [hnone] at hlmid
            simp at hlmid
          · exact flattenOne_eq_of_nodim _ _ _ u hlr (hclean u hlmid)
      rw [hre]
      have hrd : hasDim (dropSeqCoordVar
          (flattenLoop (dimSize ds ordered_seq_dim) ds SEQUENCE_VARS))
          ordered_seq_dim = true := by
        rw [← hre]
        exact hr
      unfold flatten_sequence_vars
      rw [if_pos hrd, hloopid,
        dropSeqDimIfUnused_eq_of_used _ e0 he0r he0dim]
      exact dropSeqCoordVar_eq_of_absent _ hrmem
    · exact hnoop _ (Bool.not_eq_true _ ▸ hr)
  · have hdf : hasDim ds ordered_seq_dim = false := Bool.not_eq_true _ ▸ hd
    rw [hnoop ds hdf]
    exact hnoop ds hdf

theorem C8_flattener_noop_idempotent_witness :
    flatten_sequence_vars (flatten_sequence_vars
      ⟨[("shts", ⟨["step", "orderedSequenceData"], [1, 2], [3, 4]⟩),
        ("bar", ⟨["orderedSequenceData"], [2], [7, 8]⟩)],
       [("orderedSequenceData", ⟨["orderedSequenceData"], [2], [0, 1]⟩)]⟩
      SEQUENCE_VARS) SEQUENCE_VARS =
    flatten_sequence_vars
      ⟨[("shts", ⟨["step", "orderedSequenceData"], [1, 2], [3, 4]⟩),
        ("bar", ⟨["orderedSequenceData"], [2], [7, 8]⟩)],
       [("orderedSequenceData", ⟨["orderedSequenceData"], [2], [0, 1]⟩)]⟩
      SEQUENCE_VARS :=
  (C8_flattener_noop_idempotent
    ⟨[("shts", ⟨["step", "orderedSequenceData"], [1, 2], [3, 4]⟩),
      ("bar", ⟨["orderedSequenceData"], [2], [7, 8]⟩)],
     [("orderedSequenceData", ⟨["orderedSequenceData"], [2], [0, 1]⟩)]⟩
    (by decide) (by decide) (by decide)).2
